import Mathlib

/-!
Verification of the incremental CRM loader (companies / contacts /
opportunities / activities ETL pipeline).

The Python sources are shallowly embedded:

* pure helpers (`utils/etl.py`, the per-field validators of
  `models/*.py`) become Lean functions on `String` / `Option` values;
* dynamic Python values that a field may hold are modelled by small
  inductive types (`PyV`, `DateAttr`);
* Python exceptions become an explicit `Except PyErr` result: the
  `ValueError`s that `BaseModel.validate` catches are threaded as
  accumulated message lists, while exceptions it does not catch
  (`AttributeError`, `TypeError`, the DB's `IntegrityError`) abort the
  computation;
* external library calls (`validators`, `phonenumbers`, `dateutil`,
  `country_converter`, `float()` on strings) are parameters collected in
  the `ExtDeps` structure, so every theorem quantifies over their behaviour;
* the SQLAlchemy store is a record of lists (`Store`), queries are list
  look-ups, `bulk_save_objects` + `commit` is an append guarded by the
  unique-constraint checks the database would perform on the inserted
  rows.

Machine-level caveats recorded where relevant: CPython `int()` is
modelled on ASCII digit strings (underscore separators and non-ASCII
digits are not modelled), `str.strip()` on the ASCII whitespace set, and
Python `set` iteration — whose order is unspecified — is determinised to
first-occurrence order, which no theorem below depends on.
-/

/-! ## Python string primitives -/

/-- ASCII whitespace removed by Python `str.strip()` (the ASCII part of
Python's whitespace set). -/
def pySpace (c : Char) : Bool :=
  c = ' ' || c = '\t' || c = '\n' || c = '\r' || c = '\x0b' || c = '\x0c'

def pyStripChars (cs : List Char) : List Char :=
  ((cs.dropWhile pySpace).reverse.dropWhile pySpace).reverse

/-- Python `str.strip()`. -/
def pyStrip (s : String) : String := String.mk (pyStripChars s.data)

/-- Python `str.upper()` (ASCII letters). -/
def pyUpper (s : String) : String := String.mk (s.data.map Char.toUpper)

/-- Python `str.lower()` (ASCII letters). -/
def pyLower (s : String) : String := String.mk (s.data.map Char.toLower)

/-- State-passing core of Python `str.title()`: a letter that follows a
letter is lowered, a letter that starts a word is uppered. -/
def pyTitleChars : Bool → List Char → List Char
  | _, [] => []
  | prevAlpha, c :: cs =>
    if c.isAlpha then
      (if prevAlpha then c.toLower else c.toUpper) :: pyTitleChars true cs
    else
      c :: pyTitleChars false cs

/-- Python `str.title()`. -/
def pyTitle (s : String) : String := String.mk (pyTitleChars false s.data)

/-- Python `str.split(sep)` for a single-character separator: `""` splits
to `[""]`, and every occurrence of `sep` starts a new part. -/
def splitOnChar (sep : Char) : List Char → List (List Char)
  | [] => [[]]
  | c :: cs =>
    match splitOnChar sep cs with
    | [] => [[]]
    | p :: ps => if c = sep then [] :: p :: ps else (c :: p) :: ps

def digitsVal (cs : List Char) : Nat :=
  cs.foldl (fun a c => a * 10 + (c.toNat - 48)) 0

def pyIntDigits (cs : List Char) : Option Int :=
  if cs ≠ [] ∧ cs.all Char.isDigit then some (digitsVal cs : Nat) else none

/-- CPython `int(str)` on ASCII inputs: surrounding whitespace is
stripped, one leading sign is allowed, then a non-empty run of decimal
digits (digit-group underscores and non-ASCII digits are not modelled).
`none` models the `ValueError` that `int()` raises. -/
def pyInt (s : String) : Option Int :=
  match pyStripChars s.data with
  | '+' :: cs => pyIntDigits cs
  | '-' :: cs => (pyIntDigits cs).map (fun n => -n)
  | cs => pyIntDigits cs

/-- Lexicographic `≤` on character lists, the order pandas uses when
sorting a column of strings. Structural so that the kernel can
evaluate it. -/
def lexLeChars : List Char → List Char → Bool
  | [], _ => true
  | _ :: _, [] => false
  | c :: cs, d :: ds =>
    if c.toNat < d.toNat then true
    else if d.toNat < c.toNat then false
    else lexLeChars cs ds

/-! ## External collaborators

The program leans on external libraries whose exact behaviour is out of
scope (`validators.email` / `validators.domain`, `phonenumbers`,
`dateutil.parser` + timezone defaulting, `country_converter`, CPython
`float()` on strings) and on the wall clock. They are parameters: -/

structure ExtDeps where
  /-- `validators.email` -/
  validEmail : String → Bool
  /-- `validators.domain` -/
  validDomain : String → Bool
  /-- `phonenumbers.parse`: `none` models any parse exception. -/
  phoneParse : String → Option String → Option String
  /-- `phonenumbers.format_number (·, PhoneNumberFormat.INTERNATIONAL)` -/
  phoneFormat : String → String
  /-- `utils.etl.standardize_datetime` on a string: a parsed, timezone
  aware instant (modelled as an integer timeline), `none` = unparseable. -/
  parseDate : String → Option Int
  /-- `country_converter.convert (·, to := ISO2)`; `none` models the 404
  not-found sentinel. -/
  countryISO2 : String → Option String
  /-- CPython `float(str)`; the parsed magnitude is modelled on the same
  integer timeline (only its sign is ever inspected). -/
  parseFloat : String → Option Int
  /-- `datetime.now()` on the modelled timeline. -/
  now : Int

/-! ## utils/etl.py -/

/-- `utils.etl.clean_text` on a (non-None) string. -/
def clean_text (text : String) (lower : Bool) : String :=
  if lower then pyLower (pyStrip text) else pyUpper (pyStrip text)

/-- `utils.etl.normalize_phone_number`: the bare `except` returns the
input unchanged with `False`; on success the parsed number is rendered
in international display format with `True`. -/
def normalize_phone_number (ext : ExtDeps) (phone_number : String)
    (region : Option String) : String × Bool :=
  match ext.phoneParse phone_number region with
  | some parsed => (ext.phoneFormat parsed, true)
  | none => (phone_number, false)

/-! ## Dynamic values and exceptions -/

/-- A dynamically typed cell value as the CSV/JSON readers can produce it
for the numeric columns (`probability`, `amount`, `duration_minutes`). -/
inductive PyV
  | int (n : Int)
  | str (s : String)
deriving DecidableEq, Repr

/-- Python `str(value)` for the values a `PyV` can hold. -/
def pyvStr : PyV → String
  | .int n => toString n
  | .str s => s

/-- CPython `int(value)` on a `PyV`; `none` models the `ValueError`. -/
def pyvAsInt : PyV → Option Int
  | .int n => some n
  | .str s => pyInt s

/-- CPython `float(value)` on a `PyV`; `none` models the `ValueError`. -/
def pyvAsFloat (ext : ExtDeps) : PyV → Option Int
  | .int n => some n
  | .str s => ext.parseFloat s

/-- Exceptions that can escape the modelled code. `valueError`s raised by
per-field validators are caught by `BaseModel.validate`; the others are
not caught anywhere inside the pipeline. -/
inductive PyErr
  | valueError (msg : String)
  | attributeError
  | typeError
  | integrityError
deriving DecidableEq, Repr

def exceptOk {ε α : Type} : Except ε α → Bool
  | .ok _ => true
  | .error _ => false

/-- The `"<field> cannot be null."` check of `BaseModel.validate` for a
non-nullable column (the validator is not invoked when it fires). -/
def nullErr {α : Type} (key : String) : Option α → List String
  | none => [key ++ " cannot be null."]
  | some _ => []

/-- One non-nullable column of `BaseModel.validate`: `None` yields the
null error, otherwise the field validator runs and its `ValueError`
message (if any) is collected. -/
def colErrs {α β : Type} (key : String) (v : Option α)
    (f : α → Except String β) : List String :=
  match v with
  | none => [key ++ " cannot be null."]
  | some x =>
    match f x with
    | .error e => [e]
    | .ok _ => []

/-! ## models/company.py -/

/-- `Company.validate_domain`. -/
def validate_domain (ext : ExtDeps) (domain0 : String) : Except String String :=
  let domain := pyStrip domain0
  if ext.validDomain domain then .ok domain
  else .error ("domain: " ++ domain ++ " is invalid.")

def sizeInvalidMsg (size : String) : String := "size: " ++ size ++ " is invalid."

/-- Message of the `ValueError` CPython's `int()` raises; it propagates
out of `validate_size` into `BaseModel.validate`'s handler. -/
def intLiteralMsg (part : String) : String :=
  "invalid literal for int() with base 10: '" ++ part ++ "'"

/-- `Company.validate_size`: a misplaced `+`, a two-part range that does
not parse or is inverted, or more than two `-`-separated parts are
rejected; everything else (any one-part string included) is returned
unchanged. -/
def validate_size (size0 : String) : Except String String :=
  let size := pyStrip size0
  if size.data.contains '+' && !(size.data.getLast? = some '+' : Bool) then
    .error (sizeInvalidMsg size)
  else
    match splitOnChar '-' size.data with
    | [p1, p2] =>
      match pyInt (String.mk p1) with
      | none => .error (intLiteralMsg (String.mk p1))
      | some a =>
        match pyInt (String.mk p2) with
        | none => .error (intLiteralMsg (String.mk p2))
        | some b => if a > b then .error (sizeInvalidMsg size) else .ok size
    | parts => if parts.length > 2 then .error (sizeInvalidMsg size) else .ok size

/-- `Company.validate_country`: the rebinding of `country` to the 404
sentinel before the raise makes the message read `country: 404 is
invalid.`. -/
def validate_country (ext : ExtDeps) (country0 : String) : Except String String :=
  let country := pyUpper (pyStrip country0)
  match ext.countryISO2 country with
  | some code => .ok code
  | none => .error "country: 404 is invalid."

/-- `Company.validate_created_date`. -/
def company_validate_created_date (ext : ExtDeps) (s : String) : Except String Int :=
  match ext.parseDate s with
  | none => .error ("created_date: " ++ s ++ " is invalid. Please consider ISO 8601 format.")
  | some t =>
    if t > ext.now then .error ("created_date: cannot be in future: " ++ toString t)
    else .ok t

/-- A `Company` as constructed by the pipeline (`industry` already
replaced by `industry_id`); field order is the column order of the
model. -/
structure CompanyRec where
  id : Option String
  industry_id : Option Nat
  name : Option String
  domain : Option String
  size : Option String
  country : Option String
  created_date : Option String
  is_customer : Option Bool
  annual_revenue : Option Int
deriving DecidableEq, Repr

/-- `BaseModel.validate` specialised to `Company`: every column is
checked in declaration order, each `ValueError` is caught and collected,
and the result is `(not errors, errors)`. No Company validator can raise
anything but `ValueError`, so the result is total. -/
def company_validate (ext : ExtDeps) (r : CompanyRec) : Bool × List String :=
  let e := nullErr "id" r.id
    ++ nullErr "industry_id" r.industry_id
    ++ colErrs "name" r.name (fun n => .ok (pyUpper (pyStrip n)))
    ++ colErrs "domain" r.domain (validate_domain ext)
    ++ colErrs "size" r.size validate_size
    ++ colErrs "country" r.country (validate_country ext)
    ++ colErrs "created_date" r.created_date (company_validate_created_date ext)
    ++ nullErr "is_customer" r.is_customer
    ++ nullErr "annual_revenue" r.annual_revenue
  (e.isEmpty, e)

/-! ## models/opportunity.py -/

/-- `Opportunity.validate_probability`. -/
def validate_probability (probability : PyV) : Except String Int :=
  match pyvAsInt probability with
  | none => .error ("probability: " ++ pyvStr probability ++ " must be a valid integer.")
  | some p =>
    if ¬ (0 ≤ p ∧ p ≤ 100) then
      .error ("probability: " ++ toString p ++ " must be between 0 and 100.")
    else .ok p

/-- `Opportunity.validate_amount`. -/
def validate_amount (ext : ExtDeps) (amount : PyV) : Except String Int :=
  match pyvAsFloat ext amount with
  | none => .error ("amount: " ++ pyvStr amount ++ " must be a valid numeric value.")
  | some a =>
    if a < 0 then .error ("amount: " ++ toString a ++ " cannot be negative.")
    else .ok a

/-- `Opportunity.validate_created_date` (its own wording). -/
def opportunity_validate_created_date (ext : ExtDeps) (s : String) : Except String Int :=
  match ext.parseDate s with
  | none => .error ("created_date: " ++ s ++ " is invalid. Please use ISO 8601 format.")
  | some t =>
    if t > ext.now then
      .error ("created_date: Created date cannot be in the future: " ++ toString t)
    else .ok t

/-- `Opportunity.validate_close_date`: format check only, no future
check. -/
def validate_close_date (ext : ExtDeps) (s : String) : Except String Int :=
  match ext.parseDate s with
  | none => .error ("close_date: " ++ s ++ " is invalid. Please use ISO 8601 format.")
  | some t => .ok t

/-- An `Opportunity` as constructed by the pipeline (lookup columns
already replaced by ids); field order is the column order. -/
structure OpportunityRec where
  id : Option String
  name : Option String
  contact_id : Option String
  company_id : Option String
  stage_id : Option Nat
  forecast_category_id : Option Nat
  product_id : Option Nat
  amount : Option PyV
  probability : Option PyV
  created_date : Option String
  close_date : Option String
  is_closed : Option Bool
deriving DecidableEq, Repr

/-- `BaseModel.validate` specialised to `Opportunity` (total: its
validators raise only `ValueError`, which is caught). -/
def opportunity_validate (ext : ExtDeps) (r : OpportunityRec) : Bool × List String :=
  let e := nullErr "id" r.id
    ++ colErrs "name" r.name (fun n => .ok (pyTitle (pyStrip n)))
    ++ nullErr "contact_id" r.contact_id
    ++ nullErr "company_id" r.company_id
    ++ nullErr "stage_id" r.stage_id
    ++ nullErr "forecast_category_id" r.forecast_category_id
    ++ nullErr "product_id" r.product_id
    ++ colErrs "amount" r.amount (validate_amount ext)
    ++ colErrs "probability" r.probability validate_probability
    ++ colErrs "created_date" r.created_date (opportunity_validate_created_date ext)
    ++ colErrs "close_date" r.close_date (validate_close_date ext)
    ++ nullErr "is_closed" r.is_closed
  (e.isEmpty, e)

/-! ## models/activity.py -/

/-- `Activity.validate_timestamp`: format check only. -/
def validate_timestamp (ext : ExtDeps) (s : String) : Except String Int :=
  match ext.parseDate s with
  | none => .error ("timestamp: " ++ s ++ " is invalid. Please consider ISO 8601 format.")
  | some t => .ok t

/-- `Activity.validate_duration_minutes`: `isinstance(·, int)` and
non-negativity. -/
def validate_duration_minutes (duration : PyV) : Except String Int :=
  match duration with
  | .int n =>
    if n < 0 then .error "duration_minutes: Duration must be a non-negative integer."
    else .ok n
  | .str _ => .error "duration_minutes: Duration must be a non-negative integer."

/-- An `Activity` as constructed by the pipeline; field order is the
column order (FKs first, then required fields, then `notes`).
`opportunity_id` and `notes` are nullable and have no validators. -/
structure ActivityRec where
  contact_id : Option String
  opportunity_id : Option String
  id : Option String
  type : Option String
  subject : Option String
  timestamp : Option String
  duration_minutes : Option PyV
  outcome : Option String
  notes : Option String
deriving DecidableEq, Repr

/-- `BaseModel.validate` specialised to `Activity` (total). -/
def activity_validate (ext : ExtDeps) (r : ActivityRec) : Bool × List String :=
  let e := nullErr "contact_id" r.contact_id
    ++ colErrs "id" r.id (fun i => (.ok i : Except String String))
    ++ colErrs "type" r.type (fun t => .ok (pyUpper (pyStrip t)))
    ++ colErrs "subject" r.subject (fun t => .ok (pyLower (pyStrip t)))
    ++ colErrs "timestamp" r.timestamp (validate_timestamp ext)
    ++ colErrs "duration_minutes" r.duration_minutes validate_duration_minutes
    ++ colErrs "outcome" r.outcome (fun t => .ok (pyUpper (pyStrip t)))
  (e.isEmpty, e)

/-! ## models/contact.py -/

/-- `Contact.validate_email`: strip, syntactic check, then the
uniqueness query against the already-persisted contact emails. -/
def validate_email (ext : ExtDeps) (storedEmails : List String)
    (email0 : String) : Except String String :=
  let email := pyStrip email0
  if ¬ ext.validEmail email then
    .error ("email: " ++ email ++ " is not a valid email address.")
  else if email ∈ storedEmails then
    .error ("email: A contact already exists with email " ++ email ++ ".")
  else .ok email

/-- `Contact.validate_phone` on a (non-None) string value. -/
def validate_phone (ext : ExtDeps) (phone0 : String) : Except String String :=
  match normalize_phone_number ext (pyStrip phone0) none with
  | (_, true) => .ok (normalize_phone_number ext (pyStrip phone0) none).1
  | (phone, false) =>
    .error ("phone: " ++ phone
      ++ " is not a valid. Please provide a valid phone number in international format.")

/-- `Contact.validate_created_date` (its own wording). -/
def contact_validate_created_date (ext : ExtDeps) (s : String) : Except String Int :=
  match ext.parseDate s with
  | none => .error ("created_date: " ++ s ++ " is invalid. Please use ISO 8601 format.")
  | some t =>
    if t > ext.now then .error ("created_date: cannot be in the future " ++ toString t)
    else .ok t

/-- What the `created_date` attribute holds when `validate_last_modified`
reads it back: `BaseModel.validate` only re-assigns the attribute when
the validator returned, so a failed validation leaves the raw value (or
`None`) in place. -/
inductive DateAttr
  | null
  | raw (s : String)
  | parsed (t : Int)
deriving DecidableEq, Repr

/-- `Contact.validate_last_modified`: parse and future checks raise
`ValueError` (caught by the engine); the cross-field comparison
`last_modified < self.created_date` raises an uncaught `TypeError` when
`created_date` still holds a raw string or `None`. -/
def contact_validate_last_modified (ext : ExtDeps) (createdAttr : DateAttr)
    (s : String) : Except PyErr Int :=
  match ext.parseDate s with
  | none =>
    .error (.valueError ("last_modified: " ++ s ++ " is invalid. Please use ISO 8601 format."))
  | some t =>
    if t > ext.now then
      .error (.valueError ("last_modified: cannot be in the future " ++ toString t))
    else
      match createdAttr with
      | .parsed c =>
        if t < c then .error (.valueError "last_modified: cannot be before `created_date`.")
        else .ok t
      | .raw _ => .error .typeError
      | .null => .error .typeError

/-- A `Contact` as constructed by the pipeline (`status` already replaced
by `status_id`); field order is the column order. `phone` is the only
nullable column that has a validator. -/
structure ContactRec where
  id : Option String
  status_id : Option Nat
  company_id : Option String
  email : Option String
  first_name : Option String
  last_name : Option String
  title : Option String
  phone : Option String
  created_date : Option String
  last_modified : Option String
deriving DecidableEq, Repr

/-- The value the `created_date` attribute holds after its own column was
processed (see `DateAttr`). -/
def createdAttrOf (ext : ExtDeps) (r : ContactRec) : DateAttr :=
  match r.created_date with
  | none => .null
  | some s =>
    match contact_validate_created_date ext s with
    | .ok t => .parsed t
    | .error _ => .raw s

/-- `BaseModel.validate` specialised to `Contact`, column by column in
declaration order. `init` is `self.validation_errors` as left by
`__init__` (unknown-column reports). Because `phone` is nullable, a
`None` phone reaches `validate_phone` and `None.strip()` raises an
uncaught `AttributeError`; the `last_modified` cross-field comparison
can raise an uncaught `TypeError`. Both abort `validate` itself, which
is why the result lives in `Except PyErr`. -/
def contact_validate (ext : ExtDeps) (storedEmails : List String)
    (init : List String) (r : ContactRec) : Except PyErr (Bool × List String) :=
  let e := init
    ++ nullErr "id" r.id
    ++ nullErr "status_id" r.status_id
    ++ nullErr "company_id" r.company_id
    ++ colErrs "email" r.email (validate_email ext storedEmails)
    ++ colErrs "first_name" r.first_name (fun n => .ok (pyTitle (pyStrip n)))
    ++ colErrs "last_name" r.last_name (fun n => .ok (pyTitle (pyStrip n)))
    ++ colErrs "title" r.title (fun t => .ok (pyStrip t))
  match r.phone with
  | none => .error .attributeError
  | some p =>
    let e := e
      ++ (match validate_phone ext p with
          | .error m => [m]
          | .ok _ => [])
      ++ colErrs "created_date" r.created_date (contact_validate_created_date ext)
    match r.last_modified with
    | none =>
      let e := e ++ ["last_modified cannot be null."]
      .ok (e.isEmpty, e)
    | some s =>
      match contact_validate_last_modified ext (createdAttrOf ext r) s with
      | .ok _ => .ok (e.isEmpty, e)
      | .error (.valueError m) =>
        let e := e ++ [m]
        .ok (e.isEmpty, e)
      | .error pe => .error pe

/-! ## etl/pipeline.py — data model of the store and the inputs -/

/-- The persisted relational store. Lookup tables are lists of
(normalized) names, surrogate ids being list positions; `companies` and
`contacts` keep the columns the pipeline reads back (primary key and the
unique column), `opportunities` / `activities` their primary keys. -/
structure Store where
  industries : List String
  contact_statuses : List String
  stages : List String
  forecast_categories : List String
  products : List String
  /-- `(id, domain)` of each persisted company; `domain` is unique. -/
  companies : List (String × String)
  /-- `(id, email)` of each persisted contact; `email` is unique. -/
  contacts : List (String × String)
  opportunities : List String
  activities : List String
deriving DecidableEq, Repr

/-- One record of `companies.csv` (its column set). -/
structure CompanyInput where
  id : String
  name : Option String
  domain : Option String
  industry : String
  size : Option String
  country : Option String
  created_date : Option String
  is_customer : Option Bool
  annual_revenue : Option Int
deriving DecidableEq, Repr

/-- One record of `contacts.json` (its field set). -/
structure ContactInput where
  id : String
  email : Option String
  first_name : Option String
  last_name : Option String
  title : Option String
  company_id : Option String
  phone : Option String
  status : String
  created_date : Option String
  last_modified : Option String
deriving DecidableEq, Repr

/-- One record of `opportunities.csv` (its column set). -/
structure OpportunityInput where
  id : String
  name : Option String
  contact_id : Option String
  company_id : Option String
  amount : Option PyV
  stage : String
  product : String
  probability : Option PyV
  created_date : Option String
  close_date : Option String
  is_closed : Option Bool
  forecast_category : String
deriving DecidableEq, Repr

/-- One record of `activities.json` (its field set). -/
structure ActivityInput where
  id : String
  type : Option String
  contact_id : Option String
  opportunity_id : Option String
  subject : Option String
  duration_minutes : Option PyV
  outcome : Option String
  notes : Option String
  timestamp : Option String
deriving DecidableEq, Repr

/-- The four input files of one run; the tabular files arrive as the
consecutive chunks `pd.read_csv (..., chunksize := ...)` yields, the
record-oriented files whole. -/
structure Inputs where
  companies : List (List CompanyInput)
  contacts : List ContactInput
  opportunities : List (List OpportunityInput)
  activities : List ActivityInput
deriving DecidableEq, Repr

/-! ## etl/pipeline.py — generic batch machinery -/

/-- Keep the first record of each key, in encounter order (`seen` is the
set of keys already emitted): pandas `drop_duplicates (keep := first)`,
and — with the identity key — the first-occurrence order that
determinises `pandas.unique`. -/
def keepFirstByKey {ρ κ : Type} [DecidableEq κ] (key : ρ → κ) :
    List κ → List ρ → List ρ
  | _, [] => []
  | seen, x :: xs =>
    if key x ∈ seen then keepFirstByKey key seen xs
    else x :: keepFirstByKey key (key x :: seen) xs

/-- Distinct values in first-occurrence order (`pandas.unique`). -/
def eraseDupsFirst (l : List String) : List String :=
  keepFirstByKey (fun x => x) [] l

/-- The last record carrying a given key. -/
def lastWithKey {ρ : Type} (key : ρ → String) (k : String) (l : List ρ) : Option ρ :=
  (l.filter (fun r => key r = k)).getLast?

/-- The record set a Python dict comprehension keyed by `key` retains:
one record per key (the last one written), keys in first-occurrence
order. -/
def dictWinners {ρ : Type} (key : ρ → String) (l : List ρ) : List ρ :=
  (eraseDupsFirst (l.map key)).filterMap (fun k => lastWithKey key k l)

/-- `Pipeline.process_sub_entities` on the name column values of a batch:
normalize, take distinct values, and insert the ones not present
(`set(unique) - set(existing)`, iteration determinised to
first-occurrence order). Returns the grown lookup table; the committed
insert makes the re-queried name-to-id map total on the batch. -/
def processSubEntities (existing : List String) (vals : List String) : List String :=
  existing ++
    (eraseDupsFirst (vals.map (fun v => clean_text v false))).filter (fun n => n ∉ existing)

/-- The id the re-queried name-to-id map assigns to a lookup name. -/
def subEntityId (table : List String) (name : String) : Nat :=
  table.indexOf name

/-- Validation loop of the chunk loaders whose validators cannot raise:
one pass over the novel records, splitting them into the error entries
`(record key, collected messages)` and the `to_create` stage. -/
def splitValid {ρ : Type} (recId : ρ → String) (validate : ρ → Bool × List String)
    (recs : List ρ) : List (String × List String) × List ρ :=
  (recs.filterMap (fun c => if (validate c).1 then none else some (recId c, (validate c).2)),
   recs.filter (fun c => (validate c).1))

/-- Validation loop for `Contact`, whose `validate` can raise: the first
uncaught exception aborts the whole run. -/
def splitValidE {ρ : Type} (recId : ρ → String)
    (validate : ρ → Except PyErr (Bool × List String)) :
    List ρ → Except PyErr (List (String × List String) × List ρ)
  | [] => .ok ([], [])
  | c :: cs =>
    match validate c with
    | .error e => .error e
    | .ok (v, es) =>
      match splitValidE recId validate cs with
      | .error e => .error e
      | .ok (errs, tc) =>
        if v then .ok (errs, c :: tc) else .ok ((recId c, es) :: errs, tc)

/-! ## etl/pipeline.py — the four entity loaders -/

/-- `Company(**company_data)` after `industry` was popped and replaced by
the resolved `industry_id`. -/
def companyBuild (industries : List String) (c : CompanyInput) : CompanyRec :=
  { id := some c.id
    industry_id := some (subEntityId industries (clean_text c.industry false))
    name := c.name
    domain := c.domain
    size := c.size
    country := c.country
    created_date := c.created_date
    is_customer := c.is_customer
    annual_revenue := c.annual_revenue }

/-- One chunk of `Pipeline.process_companies`: resolve industries,
filter novel primary keys, validate, and commit the bulk insert. The
commit enforces the `UNIQUE` constraint on `domain` over the inserted
rows (the persisted domain is the validated, stripped one). -/
def processCompanies1 (ext : ExtDeps) (s : Store) (chunk : List CompanyInput) :
    Except PyErr (Store × List (String × List String)) :=
  let industries := processSubEntities s.industries (chunk.map (fun c => c.industry))
  let winners := dictWinners (fun c : CompanyInput => c.id) chunk
  let novel := winners.filter (fun c => c.id ∉ s.companies.map Prod.fst)
  let (errs, to_create) :=
    splitValid (fun c : CompanyInput => c.id)
      (fun c => company_validate ext (companyBuild industries c)) novel
  let newRows := to_create.map (fun c => (c.id, pyStrip (c.domain.getD "")))
  if (newRows.map Prod.snd).Nodup ∧ ∀ d ∈ newRows.map Prod.snd, d ∉ s.companies.map Prod.snd then
    .ok ({ s with industries := industries, companies := s.companies ++ newRows }, errs)
  else
    .error .integrityError

def processCompaniesAll (ext : ExtDeps) :
    Store → List (List CompanyInput) → Except PyErr (Store × List (String × List String))
  | s, [] => .ok (s, [])
  | s, c :: cs =>
    match processCompanies1 ext s c with
    | .error e => .error e
    | .ok (s1, e1) =>
      match processCompaniesAll ext s1 cs with
      | .error e => .error e
      | .ok (s2, e2) => .ok (s2, e1 ++ e2)

/-- The pandas descending sort on the raw `last_modified` column: `a` may
be placed before `b`. Missing values sort last (`na_position =
"last"`). -/
def lmDescBefore (a b : ContactInput) : Bool :=
  match a.last_modified, b.last_modified with
  | none, none => true
  | none, some _ => false
  | some _, none => true
  | some x, some y => lexLeChars y.data x.data

def contactSortRel (a b : ContactInput) : Prop := lmDescBefore a b = true

instance : DecidableRel contactSortRel := fun a b => instDecidableEqBool _ _

/-- Lines 213–214 of the pipeline: sort by `last_modified` descending,
then `drop_duplicates (subset := email, keep := first)`. -/
def contactDedupBatch (batch : List ContactInput) : List ContactInput :=
  keepFirstByKey (fun c => c.email) [] (List.insertionSort contactSortRel batch)

/-- `Contact(**contact_data)` after `status` was popped and replaced by
the resolved `status_id`. -/
def contactBuild (statuses : List String) (c : ContactInput) : ContactRec :=
  { id := some c.id
    status_id := some (subEntityId statuses (clean_text c.status false))
    company_id := c.company_id
    email := c.email
    first_name := c.first_name
    last_name := c.last_name
    title := c.title
    phone := c.phone
    created_date := c.created_date
    last_modified := c.last_modified }

/-- `Pipeline.process_contacts`: dedup by recency, resolve statuses,
filter novel keys, validate against the committed store (bulk insert and
commit happen only after the loop, so every candidate sees the same
persisted email set), commit with the `UNIQUE` email constraint on the
inserted rows. -/
def processContacts1 (ext : ExtDeps) (s : Store) (batch : List ContactInput) :
    Except PyErr (Store × List (String × List String)) :=
  let deduped := contactDedupBatch batch
  let statuses := processSubEntities s.contact_statuses (deduped.map (fun c => c.status))
  let winners := dictWinners (fun c : ContactInput => c.id) deduped
  let novel := winners.filter (fun c => c.id ∉ s.contacts.map Prod.fst)
  let storedEmails := s.contacts.map Prod.snd
  match splitValidE (fun c : ContactInput => c.id)
      (fun c => contact_validate ext storedEmails [] (contactBuild statuses c)) novel with
  | .error e => .error e
  | .ok (errs, to_create) =>
    let newRows := to_create.map (fun c => (c.id, pyStrip (c.email.getD "")))
    if (newRows.map Prod.snd).Nodup ∧ ∀ em ∈ newRows.map Prod.snd, em ∉ storedEmails then
      .ok ({ s with contact_statuses := statuses, contacts := s.contacts ++ newRows }, errs)
    else
      .error .integrityError

/-- `Opportunity(**opportunity_data)` after the three lookup columns were
popped and replaced by resolved ids. -/
def oppBuild (stages fcs products : List String) (c : OpportunityInput) : OpportunityRec :=
  { id := some c.id
    name := c.name
    contact_id := c.contact_id
    company_id := c.company_id
    stage_id := some (subEntityId stages (clean_text c.stage false))
    forecast_category_id := some (subEntityId fcs (clean_text c.forecast_category false))
    product_id := some (subEntityId products (clean_text c.product false))
    amount := c.amount
    probability := c.probability
    created_date := c.created_date
    close_date := c.close_date
    is_closed := c.is_closed }

/-- One chunk of `Pipeline.process_opportunities` (its validators raise
nothing past the engine, and only the primary key is constrained, which
the novelty filter already guarantees for the inserted rows). -/
def processOpportunities1 (ext : ExtDeps) (s : Store) (chunk : List OpportunityInput) :
    Store × List (String × List String) :=
  let stages := processSubEntities s.stages (chunk.map (fun c => c.stage))
  let fcs := processSubEntities s.forecast_categories (chunk.map (fun c => c.forecast_category))
  let products := processSubEntities s.products (chunk.map (fun c => c.product))
  let winners := dictWinners (fun c : OpportunityInput => c.id) chunk
  let novel := winners.filter (fun c => c.id ∉ s.opportunities)
  let (errs, to_create) :=
    splitValid (fun c : OpportunityInput => c.id)
      (fun c => opportunity_validate ext (oppBuild stages fcs products c)) novel
  ({ s with stages := stages, forecast_categories := fcs, products := products,
            opportunities := s.opportunities ++ to_create.map (fun c => c.id) }, errs)

def processOpportunitiesAll (ext : ExtDeps) :
    Store → List (List OpportunityInput) → Store × List (String × List String)
  | s, [] => (s, [])
  | s, c :: cs =>
    let (s1, e1) := processOpportunities1 ext s c
    let (s2, e2) := processOpportunitiesAll ext s1 cs
    (s2, e1 ++ e2)

/-- `Activity(**activity_data)` (no lookup substitution). -/
def activityBuild (c : ActivityInput) : ActivityRec :=
  { contact_id := c.contact_id
    opportunity_id := c.opportunity_id
    id := some c.id
    type := c.type
    subject := c.subject
    timestamp := c.timestamp
    duration_minutes := c.duration_minutes
    outcome := c.outcome
    notes := c.notes }

/-- `Pipeline.process_activities`. -/
def processActivities1 (ext : ExtDeps) (s : Store) (batch : List ActivityInput) :
    Store × List (String × List String) :=
  let winners := dictWinners (fun c : ActivityInput => c.id) batch
  let novel := winners.filter (fun c => c.id ∉ s.activities)
  let (errs, to_create) :=
    splitValid (fun c : ActivityInput => c.id)
      (fun c => activity_validate ext (activityBuild c)) novel
  ({ s with activities := s.activities ++ to_create.map (fun c => c.id) }, errs)

/-- The validation errors one run appends, keyed by entity type (one
entry per rejected record: its primary key and its ordered error
messages — the JSON artifact stores the full record dict, keyed here by
its primary key). -/
structure RunErrors where
  companies : List (String × List String)
  contacts : List (String × List String)
  opportunities : List (String × List String)
  activities : List (String × List String)
deriving DecidableEq, Repr

/-- `Pipeline.run`: the four loaders in dependency order inside one
session; any uncaught exception aborts the run. Returns the final store
and the validation errors this run appended. -/
def runPipeline (ext : ExtDeps) (s : Store) (inp : Inputs) :
    Except PyErr (Store × RunErrors) :=
  match processCompaniesAll ext s inp.companies with
  | .error e => .error e
  | .ok (s1, ce) =>
    match processContacts1 ext s1 inp.contacts with
    | .error e => .error e
    | .ok (s2, te) =>
      let (s3, oe) := processOpportunitiesAll ext s2 inp.opportunities
      let (s4, ae) := processActivities1 ext s3 inp.activities
      .ok (s4, ⟨ce, te, oe, ae⟩)

/-! ## etl/pipeline.py — the class-level error accumulator -/

def accAppend (a b : RunErrors) : RunErrors :=
  ⟨a.companies ++ b.companies, a.contacts ++ b.contacts,
   a.opportunities ++ b.opportunities, a.activities ++ b.activities⟩

/-- The per-instance state `Pipeline.__init__` actually creates: only the
two paths. -/
structure PipelineInst where
  data_path : String
  errors_path : String
deriving DecidableEq, Repr

/-- `Pipeline(path, errors_path)`: `validation_errors` lives in the class
dict (first argument, threaded explicitly here); `__init__` assigns only
the paths, so the accumulator passes through untouched. -/
def pipelineInit (validation_errors : RunErrors) (path errors_path : String) :
    RunErrors × PipelineInst :=
  (validation_errors, { data_path := path, errors_path := errors_path })

/-- `Pipeline.run` as invoked on an instance: the class-level accumulator
receives every error this run appends, on top of whatever earlier runs
left in it. -/
def runPipelineAcc (ext : ExtDeps) (validation_errors : RunErrors) (s : Store)
    (inp : Inputs) : Except PyErr (Store × RunErrors) :=
  match runPipeline ext s inp with
  | .error e => .error e
  | .ok (s', produced) => .ok (s', accAppend validation_errors produced)

/-- Contents of the JSON artifact `Pipeline.log_errors` writes: the whole
class-level accumulator, not a per-run delta. -/
def log_errors (validation_errors : RunErrors) : RunErrors :=
  validation_errors

/-! ## Statements taken from the specification's wording

These definitions are NOT read off the source; they transcribe the
spec's description so that source behaviour can be compared against
it. -/

def specBareInt (cs : List Char) : Bool :=
  decide (cs ≠ []) && cs.all Char.isDigit

/-- The spec's three company-size formats: a bare integer,
`"<low>-<high>"` with `low ≤ high`, or `"<n>+"` with the `+` only as the
final character. -/
def specSizeFormat (s : String) : Bool :=
  specBareInt s.data
  || (match splitOnChar '-' s.data with
      | [a, b] => specBareInt a && specBareInt b && decide ((digitsVal a : Int) ≤ digitsVal b)
      | _ => false)
  || (match s.data.getLast? with
      | some '+' => specBareInt s.data.dropLast
      | _ => false)

/-- What `validate_size` actually accepts: no misplaced `+`, at most two
`-`-separated parts, and — only when there are exactly two parts — both
parse under `int()` with `low ≤ high`. One-part strings are accepted
without any integer check. -/
def amendedSizeOk (s0 : String) : Bool :=
  let cs := pyStripChars s0.data
  (!(cs.contains '+') || (cs.getLast? = some '+' : Bool))
  && (match splitOnChar '-' cs with
      | [a, b] =>
        (match pyInt (String.mk a), pyInt (String.mk b) with
         | some x, some y => decide (x ≤ y)
         | _, _ => false)
      | parts => decide (parts.length ≤ 2))

/-! ## Predicates used to characterise `contact_validate`'s outcome -/

/-- `created_date` validates: present, parseable, not in the future —
exactly when the attribute ends up holding a parsed datetime. -/
def contactCreatedOk (ext : ExtDeps) (r : ContactRec) : Prop :=
  ∃ s t, r.created_date = some s ∧ ext.parseDate s = some t ∧ t ≤ ext.now

/-- `last_modified` parses and is not in the future, so its validator
reaches the cross-field comparison against the `created_date`
attribute. -/
def contactLmReachesCompare (ext : ExtDeps) (r : ContactRec) : Prop :=
  ∃ s t, r.last_modified = some s ∧ ext.parseDate s = some t ∧ t ≤ ext.now

/-! ## Per-column error lists of `Contact` validation, as standalone
functions of the record (used to state that the engine collects all of
them rather than stopping at the first failure) -/

def emailColErrs (ext : ExtDeps) (storedEmails : List String) (r : ContactRec) :
    List String :=
  colErrs "email" r.email (validate_email ext storedEmails)

/-- Errors the `phone` column contributes when the validator returns
(`none` instead aborts validation with `AttributeError`, so it
contributes to no error list). -/
def phoneColErrs (ext : ExtDeps) (r : ContactRec) : List String :=
  match r.phone with
  | none => []
  | some p =>
    match validate_phone ext p with
    | .error m => [m]
    | .ok _ => []

def createdColErrs (ext : ExtDeps) (r : ContactRec) : List String :=
  colErrs "created_date" r.created_date (contact_validate_created_date ext)

/-- Errors the `last_modified` column contributes when validation
returns; the one column whose check reads another field (the
`created_date` attribute). -/
def lastModifiedColErrs (ext : ExtDeps) (r : ContactRec) : List String :=
  match r.last_modified with
  | none => ["last_modified cannot be null."]
  | some s =>
    match contact_validate_last_modified ext (createdAttrOf ext r) s with
    | .ok _ => []
    | .error (.valueError m) => [m]
    | .error _ => []

/-- The hypothesis under which a second run reports exactly the first
run's contact errors: no contact the second run re-processes (a deduped
record whose key run 1 did not persist) has a stripped email equal to
one of the emails run 1 inserted (`s` the store before run 1, `s1`
after). -/
def NoEmailClash (s s1 : Store) (inp : Inputs) : Prop :=
  ∀ c ∈ dictWinners (fun c : ContactInput => c.id) (contactDedupBatch inp.contacts),
    c.id ∉ s1.contacts.map Prod.fst →
    ∀ em, c.email = some em →
      pyStrip em ∉ (s1.contacts.map Prod.snd).drop s.contacts.length

/-! ## Derived views of the validation loops (used to state the run-level
theorems) -/

/-- Whether a fallible validation verdict is a success verdict. -/
def validOutcome {ρ : Type} (validate : ρ → Except PyErr (Bool × List String))
    (c : ρ) : Bool :=
  match validate c with
  | .ok (v, _) => v
  | .error _ => false

/-- The error entry a fallible validation contributes for one record. -/
def errEntry {ρ : Type} (recId : ρ → String)
    (validate : ρ → Except PyErr (Bool × List String)) (c : ρ) :
    Option (String × List String) :=
  match validate c with
  | .ok (v, es) => if v then none else some (recId c, es)
  | .error _ => none

/-- The error list one chunk loader produces, as a single pass over the
chunk's dict winners: records whose key is already persisted are
skipped, the invalid remainder contributes `(key, messages)`. -/
def chunkErrsOf {ρ : Type} (recId : ρ → String) (validate : ρ → Bool × List String)
    (ids : List String) (recs : List ρ) : List (String × List String) :=
  (recs.filter (fun c => recId c ∉ ids)).filterMap
    (fun c => if (validate c).1 then none else some (recId c, (validate c).2))

/-! ## Concrete fixtures used by witnesses and counterexamples -/

/-- A concrete instantiation of the external collaborators, used to
evaluate the model on closed inputs. -/
def extW : ExtDeps :=
  { validEmail := fun s => s.data.contains '@'
    validDomain := fun s => s.data.contains '.'
    phoneParse := fun p _ => if p = "+15550001111" then some p else none
    phoneFormat := fun p => p
    parseDate := fun s => pyInt s
    countryISO2 := fun c => if c = "US" then some "US" else none
    parseFloat := fun s => pyInt s
    now := 100 }

/-- A contact record that is invalid in exactly two independent fields:
a syntactically bad email and an unparseable phone. -/
def contactTwoBad : ContactRec :=
  { id := some "CONT2", status_id := some 1, company_id := some "COM1",
    email := some "bad", first_name := some "Ann", last_name := some "Lee",
    title := some "CTO", phone := some "xyz", created_date := some "1",
    last_modified := some "2" }

/-- The empty store: a freshly created database. -/
def store0W : Store := ⟨[], [], [], [], [], [], [], [], []⟩

/-- A contact that passes every validator under `extW`; its email carries
a leading space that validation strips before persisting. -/
def contactOkW : ContactInput :=
  { id := "c1", email := some " a@b.com", first_name := some "Al",
    last_name := some "Ba", title := some "VP", company_id := some "COM1",
    phone := some "+15550001111", status := "active",
    created_date := some "1", last_modified := some "2" }

/-- A contact with an unparseable phone; its (stripped) email coincides
with what `contactOkW` persists. -/
def contactClashW : ContactInput :=
  { id := "c2", email := some "a@b.com", first_name := some "Cy",
    last_name := some "Da", title := some "VP", company_id := some "COM1",
    phone := some "xyz", status := "active",
    created_date := some "1", last_modified := some "2" }

/-- An input set with one valid contact and nothing else. -/
def inputsOneW : Inputs := ⟨[], [contactOkW], [], []⟩

/-- An input set whose second contact is rejected and email-clashes with
the first. -/
def inputsClashW : Inputs := ⟨[], [contactOkW, contactClashW], [], []⟩

/-- The store either input set produces from `store0W`. -/
def storeOneW : Store :=
  { industries := [], contact_statuses := ["ACTIVE"], stages := [],
    forecast_categories := [], products := [], companies := [],
    contacts := [("c1", "a@b.com")], opportunities := [], activities := [] }

/-- The phone-format error message `contactClashW` always receives. -/
def phoneMsgW : String :=
  "phone: xyz is not a valid. Please provide a valid phone number in international format."

/-- The email-uniqueness error message `contactClashW` receives only on
the second run. -/
def emailMsgW : String :=
  "email: A contact already exists with email a@b.com."

/-! # Helper lemmas -/

theorem keepFirstByKey_subset {ρ κ : Type} [DecidableEq κ] (key : ρ → κ) :
    ∀ (seen : List κ) (l : List ρ) (x : ρ), x ∈ keepFirstByKey key seen l → x ∈ l := by
  intro seen l
  induction l generalizing seen with
  | nil => intro x hx; simp [keepFirstByKey] at hx
  | cons a l ih =>
    intro x hx
    by_cases h : key a ∈ seen
    · simp only [keepFirstByKey, if_pos h] at hx
      exact List.mem_cons_of_mem _ (ih _ _ hx)
    · simp only [keepFirstByKey, if_neg h, List.mem_cons] at hx
      rcases hx with rfl | hx
      · exact List.mem_cons_self _ _
      · exact List.mem_cons_of_mem _ (ih _ _ hx)

theorem keepFirstByKey_filter {ρ κ : Type} [DecidableEq κ] (key : ρ → κ) (k : κ) :
    ∀ (seen : List κ) (l : List ρ),
      (keepFirstByKey key seen l).filter (fun r => key r = k) =
        if k ∈ seen then [] else (l.filter (fun r => key r = k)).take 1 := by
  intro seen l
  induction l generalizing seen with
  | nil => simp [keepFirstByKey]
  | cons a l ih =>
    by_cases hs : key a ∈ seen
    · simp only [keepFirstByKey, if_pos hs, ih]
      by_cases hk : k ∈ seen
      · simp [hk]
      · have hak : ¬ (key a = k) := fun h => hk (h ▸ hs)
        simp [hk, List.filter_cons, hak]
    · simp only [keepFirstByKey, if_neg hs]
      by_cases hak : key a = k
      · subst hak
        have hk : key a ∉ seen := hs
        simp only [List.filter_cons, decide_True, if_pos rfl, ih]
        simp [hk]
      · simp only [List.filter_cons]
        have : (decide (key a = k)) = false := decide_eq_false hak
        simp only [this, Bool.false_eq_true, if_false, ih]
        by_cases hk : k ∈ seen
        · simp [hk, hak]
        · have : k ∉ key a :: seen := by
            intro h; rcases List.mem_cons.mp h with h | h
            · exact hak h.symm
            · exact hk h
          simp [hk, this]

theorem keepFirstByKey_key_mem {ρ κ : Type} [DecidableEq κ] (key : ρ → κ) :
    ∀ (seen : List κ) (l : List ρ) (x : ρ), x ∈ keepFirstByKey key seen l →
      key x ∉ seen := by
  intro seen l
  induction l generalizing seen with
  | nil => intro x hx; simp [keepFirstByKey] at hx
  | cons a l ih =>
    intro x hx
    by_cases h : key a ∈ seen
    · exact ih _ _ (by simpa only [keepFirstByKey, if_pos h] using hx)
    · simp only [keepFirstByKey, if_neg h, List.mem_cons] at hx
      rcases hx with rfl | hx
      · exact h
      · intro hmem
        exact ih _ _ hx (List.mem_cons_of_mem _ hmem)

theorem keepFirstByKey_keys_nodup {ρ κ : Type} [DecidableEq κ] (key : ρ → κ) :
    ∀ (seen : List κ) (l : List ρ), ((keepFirstByKey key seen l).map key).Nodup := by
  intro seen l
  induction l generalizing seen with
  | nil => simp [keepFirstByKey]
  | cons a l ih =>
    by_cases h : key a ∈ seen
    · simpa only [keepFirstByKey, if_pos h] using ih seen
    · simp only [keepFirstByKey, if_neg h, List.map_cons, List.nodup_cons]
      refine ⟨?_, ih _⟩
      intro hmem
      rcases List.mem_map.mp hmem with ⟨y, hy, hky⟩
      exact keepFirstByKey_key_mem key _ _ y hy (hky ▸ List.mem_cons_self _ _)

theorem keepFirstByKey_covers {ρ κ : Type} [DecidableEq κ] (key : ρ → κ) :
    ∀ (seen : List κ) (l : List ρ) (x : ρ), x ∈ l → key x ∉ seen →
      ∃ r ∈ keepFirstByKey key seen l, key r = key x := by
  intro seen l
  induction l generalizing seen with
  | nil => intro x hx; simp at hx
  | cons a l ih =>
    intro x hx hseen
    rcases List.mem_cons.mp hx with rfl | hx
    · simp only [keepFirstByKey, if_neg hseen]
      exact ⟨x, List.mem_cons_self _ _, rfl⟩
    · by_cases h : key a ∈ seen
      · simp only [keepFirstByKey, if_pos h]
        exact ih seen x hx hseen
      · simp only [keepFirstByKey, if_neg h]
        by_cases hax : key x = key a
        · exact ⟨a, List.mem_cons_self _ _, hax.symm⟩
        · have : key x ∉ key a :: seen := by
            intro hm; rcases List.mem_cons.mp hm with hm | hm
            · exact hax hm
            · exact hseen hm
          rcases ih (key a :: seen) x hx this with ⟨r, hr, hkr⟩
          exact ⟨r, List.mem_cons_of_mem _ hr, hkr⟩

theorem eraseDupsFirst_mem (l : List String) (x : String) :
    x ∈ eraseDupsFirst l ↔ x ∈ l := by
  constructor
  · exact keepFirstByKey_subset (fun y => y) [] l x
  · intro hx
    rcases keepFirstByKey_covers (fun y => y) [] l x hx (by simp) with ⟨r, hr, hk⟩
    simpa [← hk] using hr

theorem eraseDupsFirst_nodup (l : List String) : (eraseDupsFirst l).Nodup := by
  have := keepFirstByKey_keys_nodup (fun y : String => y) [] l
  simpa [List.map_id'] using this

theorem processSubEntities_mem_of (existing vals : List String) :
    ∀ v ∈ vals, clean_text v false ∈ processSubEntities existing vals := by
  intro v hv
  unfold processSubEntities
  by_cases h : clean_text v false ∈ existing
  · exact List.mem_append_left _ h
  · refine List.mem_append_right _ ?_
    rw [List.mem_filter]
    refine ⟨?_, by simpa using h⟩
    rw [eraseDupsFirst_mem]
    exact List.mem_map_of_mem _ hv

theorem processSubEntities_noop (existing vals : List String)
    (h : ∀ v ∈ vals, clean_text v false ∈ existing) :
    processSubEntities existing vals = existing := by
  unfold processSubEntities
  have : (eraseDupsFirst (vals.map (fun v => clean_text v false))).filter
      (fun n => n ∉ existing) = [] := by
    rw [List.filter_eq_nil]
    intro n hn
    rw [eraseDupsFirst_mem] at hn
    rcases List.mem_map.mp hn with ⟨v, hv, rfl⟩
    simpa using h v hv
  rw [this, List.append_nil]

theorem processSubEntities_mono (existing vals : List String) (x : String)
    (hx : x ∈ existing) : x ∈ processSubEntities existing vals :=
  List.mem_append_left _ hx

/-! # Claims -/

/-- C10: `normalize_phone_number` is total and preserves its input on
failure: every parse failure returns the raw input unchanged paired with
`False`; success returns the parsed number in international display
format paired with `True`. -/
theorem normalize_phone_number_total_preserving (ext : ExtDeps) (pn : String)
    (region : Option String) :
    ((normalize_phone_number ext pn region).2 = false →
      (normalize_phone_number ext pn region).1 = pn)
    ∧ ((normalize_phone_number ext pn region).2 = true →
      ∃ parsed, ext.phoneParse pn region = some parsed ∧
        (normalize_phone_number ext pn region).1 = ext.phoneFormat parsed) := by
  unfold normalize_phone_number
  cases h : ext.phoneParse pn region with
  | none => simp
  | some parsed => simp

/-- C8: `validate_probability` accepts exactly the values that parse as
an integer in `[0, 100]`; in particular 0 and 100 are accepted while -20
and 101 are rejected. -/
theorem validate_probability_range :
    (∀ p : PyV, exceptOk (validate_probability p) = true ↔
      ∃ n, pyvAsInt p = some n ∧ 0 ≤ n ∧ n ≤ 100)
    ∧ exceptOk (validate_probability (.int 0)) = true
    ∧ exceptOk (validate_probability (.int 100)) = true
    ∧ exceptOk (validate_probability (.int (-20))) = false
    ∧ exceptOk (validate_probability (.int 101)) = false := by
  refine ⟨?_, by decide, by decide, by decide, by decide⟩
  intro p
  unfold validate_probability
  cases h : pyvAsInt p with
  | none => simp [exceptOk]
  | some n =>
    by_cases hr : 0 ≤ n ∧ n ≤ 100
    · simp [exceptOk, hr]
    · simp only [if_pos hr, exceptOk]
      simp [hr]

/-- C7: contact email validation records an error exactly when the
stripped email is syntactically invalid or a contact with exactly that
email is already persisted — the uniqueness check runs against the
store's email set, whatever the current batch holds. -/
theorem validate_email_store_uniqueness (ext : ExtDeps) (storedEmails : List String)
    (email0 : String) :
    exceptOk (validate_email ext storedEmails email0) = false ↔
      (ext.validEmail (pyStrip email0) = false ∨ pyStrip email0 ∈ storedEmails) := by
  unfold validate_email
  by_cases hv : ext.validEmail (pyStrip email0)
  · by_cases hm : pyStrip email0 ∈ storedEmails
    · simp [hv, hm, exceptOk]
    · simp [hv, hm, exceptOk]
  · simp [hv, exceptOk]

theorem pyStrip_data (s : String) : (pyStrip s).data = pyStripChars s.data := rfl

/-- C2: the reference-entity resolver creates at most one lookup row per
distinct normalized (uppercase-trimmed) value — the inserted names are
duplicate-free, new, and all normalizations of batch values; values
differing only in case/whitespace resolve to one id; and running the
resolver again over the same batch inserts nothing (the table is
returned unchanged). -/
theorem process_sub_entities_dedup (existing vals : List String) :
    ((eraseDupsFirst (vals.map (fun v => clean_text v false))).filter
        (fun n => n ∉ existing)).Nodup
    ∧ (∀ n ∈ (eraseDupsFirst (vals.map (fun v => clean_text v false))).filter
        (fun n => n ∉ existing), n ∉ existing ∧ ∃ v ∈ vals, n = clean_text v false)
    ∧ processSubEntities existing vals =
        existing ++ (eraseDupsFirst (vals.map (fun v => clean_text v false))).filter
          (fun n => n ∉ existing)
    ∧ processSubEntities (processSubEntities existing vals) vals =
        processSubEntities existing vals
    ∧ (∀ v1 v2, clean_text v1 false = clean_text v2 false →
        subEntityId (processSubEntities existing vals) (clean_text v1 false) =
        subEntityId (processSubEntities existing vals) (clean_text v2 false)) := by
  refine ⟨(eraseDupsFirst_nodup _).filter _, ?_, rfl, ?_, ?_⟩
  · intro n hn
    rw [List.mem_filter] at hn
    rcases hn with ⟨hmem, hnot⟩
    refine ⟨by simpa using hnot, ?_⟩
    rw [eraseDupsFirst_mem] at hmem
    rcases List.mem_map.mp hmem with ⟨v, hv, rfl⟩
    exact ⟨v, hv, rfl⟩
  · exact processSubEntities_noop _ _ (fun v hv => processSubEntities_mem_of existing vals v hv)
  · intro v1 v2 h
    rw [h]

/-- C6 counterexample: the claim says `validate_size` accepts a string
only if it is one of the three spec formats, but the one-part string
`"abc"` — none of the formats — is accepted unchanged. -/
theorem validate_size_counterexample :
    validate_size "abc" = .ok "abc" ∧ specSizeFormat "abc" = false
    ∧ exceptOk (validate_size "abc") = true := by
  refine ⟨rfl, by decide, by decide⟩

/-- C6 amended: `validate_size` accepts a string iff, after stripping,
any `+` is only the final character, there are at most two
`-`-separated parts, and a two-part range has both parts `int()`-parseable
with low ≤ high; in particular `"1000+"` is accepted while `"1000+100"`,
`"1000-100"` and three-part strings are rejected — but a one-part string
is accepted without any bare-integer check. -/
theorem validate_size_amended (s : String) :
    exceptOk (validate_size s) = amendedSizeOk s := by
  simp only [validate_size, amendedSizeOk, pyStrip_data]
  by_cases hplus :
      ((pyStripChars s.data).contains '+'
        && !((pyStripChars s.data).getLast? = some '+' : Bool)) = true
  · rw [if_pos hplus]
    have hfst : (!(pyStripChars s.data).contains '+'
        || ((pyStripChars s.data).getLast? = some '+' : Bool)) = false := by
      have h' := hplus
      simp only [Bool.and_eq_true, Bool.not_eq_true'] at h'
      rw [h'.1, h'.2]
      rfl
    rw [hfst]
    simp [exceptOk]
  · rw [if_neg hplus]
    have hfst : (!(pyStripChars s.data).contains '+'
        || ((pyStripChars s.data).getLast? = some '+' : Bool)) = true := by
      cases ha : (pyStripChars s.data).contains '+'
      · simp
      · cases hb : ((pyStripChars s.data).getLast? = some '+' : Bool)
        · exact absurd (by rw [ha, hb]; rfl) hplus
        · simp [hb]
    rw [hfst, Bool.true_and]
    cases hsp : splitOnChar '-' (pyStripChars s.data) with
    | nil => simp [exceptOk]
    | cons a tail =>
      cases tail with
      | nil => simp [exceptOk]
      | cons b tail2 =>
        cases tail2 with
        | nil =>
          cases hA : pyInt (String.mk a) with
          | none => simp only [hA]; simp [exceptOk]
          | some x =>
            cases hB : pyInt (String.mk b) with
            | none => simp only [hA, hB]; simp [exceptOk]
            | some y =>
              simp only [hA, hB]
              show exceptOk (if x > y then Except.error (sizeInvalidMsg (pyStrip s))
                  else Except.ok (pyStrip s)) = decide (x ≤ y)
              by_cases hxy : x > y
              · rw [if_pos hxy]
                have hle : ¬ (x ≤ y) := by omega
                simp [exceptOk, hle]
              · rw [if_neg hxy]
                have hle : x ≤ y := by omega
                simp [exceptOk, hle]
        | cons c tail3 =>
          have hlen : (a :: b :: c :: tail3).length > 2 := by
            simp only [List.length_cons]; omega
          have hle : ¬ ((a :: b :: c :: tail3).length ≤ 2) := by omega
          show exceptOk (if (a :: b :: c :: tail3).length > 2
              then Except.error (sizeInvalidMsg (pyStrip s))
              else Except.ok (pyStrip s)) = decide ((a :: b :: c :: tail3).length ≤ 2)
          rw [if_pos hlen]
          simp [exceptOk, hle]

theorem createdAttrOf_parsed_iff (ext : ExtDeps) (r : ContactRec) :
    (∃ t, createdAttrOf ext r = .parsed t) ↔ contactCreatedOk ext r := by
  obtain ⟨rid, rst, rco, rem, rfn, rln, rti, rph, rcd, rlm⟩ := r
  unfold createdAttrOf contactCreatedOk contact_validate_created_date
  cases rcd with
  | none => simp
  | some s =>
    cases hp : ext.parseDate s with
    | none => simp [hp]
    | some t =>
      simp only [hp]
      by_cases hf : t > ext.now
      · rw [if_pos hf]
        simp [hp]
        omega
      · rw [if_neg hf]
        simp [hp]
        omega

/-- C3 counterexample: a `Contact` record whose nullable `phone` is
`None` makes `validate()` invoke `validate_phone` on `None`, and
`None.strip()` raises an uncaught `AttributeError`: validation does not
return a structured result for every record. -/
theorem contact_validate_counterexample :
    contact_validate
      { validEmail := fun _ => true, validDomain := fun _ => true,
        phoneParse := fun _ _ => none, phoneFormat := fun p => p,
        parseDate := fun s => pyInt s, countryISO2 := fun _ => some "US",
        parseFloat := fun _ => some 0, now := 100 }
      [] []
      { id := some "CONT1", status_id := some 1, company_id := some "COM1",
        email := some "a@b.com", first_name := some "Ann", last_name := some "Lee",
        title := some "CTO", phone := none, created_date := some "1",
        last_modified := some "2" }
      = Except.error PyErr.attributeError := rfl

theorem contact_validate_ok_char (ext : ExtDeps)
    (storedEmails init : List String) (r : ContactRec) :
    exceptOk (contact_validate ext storedEmails init r) = true ↔
      (r.phone ≠ none ∧ (contactLmReachesCompare ext r → contactCreatedOk ext r)) := by
  obtain ⟨rid, rst, rco, rem, rfn, rln, rti, rph, rcd, rlm⟩ := r
  unfold contact_validate
  cases rph with
  | none => simp [exceptOk, contactLmReachesCompare, contactCreatedOk]
  | some p =>
    cases rlm with
    | none =>
      simp [exceptOk, contactLmReachesCompare]
    | some s =>
      cases hp : ext.parseDate s with
      | none =>
        simp only [contact_validate_last_modified, hp, exceptOk]
        simp [contactLmReachesCompare, hp]
      | some t =>
        by_cases hf : t > ext.now
        · simp only [contact_validate_last_modified, hp, if_pos hf, exceptOk]
          simp [contactLmReachesCompare, hp]
          omega
        · have hreach : contactLmReachesCompare ext
              ⟨rid, rst, rco, rem, rfn, rln, rti, some p, rcd, some s⟩ :=
            ⟨s, t, rfl, hp, by omega⟩
          cases hca : createdAttrOf ext
              ⟨rid, rst, rco, rem, rfn, rln, rti, some p, rcd, some s⟩ with
          | parsed c =>
            have hok := (createdAttrOf_parsed_iff ext _).mp ⟨c, hca⟩
            by_cases hbefore : t < c
            · simp only [contact_validate_last_modified, hp, if_neg hf, hca,
                if_pos hbefore, exceptOk]
              simp [hok]
            · simp only [contact_validate_last_modified, hp, if_neg hf, hca,
                if_neg hbefore, exceptOk]
              simp [hok]
          | raw s0 =>
            have hnok : ¬ contactCreatedOk ext
                ⟨rid, rst, rco, rem, rfn, rln, rti, some p, rcd, some s⟩ := by
              intro hok
              rcases (createdAttrOf_parsed_iff ext _).mpr hok with ⟨t', ht'⟩
              rw [hca] at ht'
              exact absurd ht' (by simp)
            simp only [contact_validate_last_modified, hp, if_neg hf, hca, exceptOk]
            simp
            exact ⟨hreach, hnok⟩
          | null =>
            have hnok : ¬ contactCreatedOk ext
                ⟨rid, rst, rco, rem, rfn, rln, rti, some p, rcd, some s⟩ := by
              intro hok
              rcases (createdAttrOf_parsed_iff ext _).mpr hok with ⟨t', ht'⟩
              rw [hca] at ht'
              exact absurd ht' (by simp)
            simp only [contact_validate_last_modified, hp, if_neg hf, hca, exceptOk]
            simp
            exact ⟨hreach, hnok⟩

/-- C3 amended: `Contact` validation returns a structured
`(isValid, errors)` result — every per-field `ValueError` is caught and
collected — exactly for the records whose nullable `phone` is not
`None` and whose `last_modified` check, when it reaches the cross-field
comparison, finds a successfully validated `created_date`; otherwise an
uncaught `AttributeError` / `TypeError` escapes `validate()` into the
caller. -/
theorem contact_validate_structured_iff (ext : ExtDeps)
    (storedEmails init : List String) (r : ContactRec) :
    exceptOk (contact_validate ext storedEmails init r) = true ↔
      (r.phone ≠ none ∧ (contactLmReachesCompare ext r → contactCreatedOk ext r)) :=
  contact_validate_ok_char ext storedEmails init r

theorem colErrs_total {α β : Type} (key : String) (v : Option α) (f : α → β) :
    colErrs key v (fun x => .ok (f x)) = nullErr key v := by
  cases v <;> rfl

theorem contact_validate_errs_decomp (ext : ExtDeps)
    (storedEmails init : List String) (r : ContactRec) (v : Bool) (errs : List String)
    (h : contact_validate ext storedEmails init r = .ok (v, errs)) :
    errs = init ++ nullErr "id" r.id ++ nullErr "status_id" r.status_id
      ++ nullErr "company_id" r.company_id ++ emailColErrs ext storedEmails r
      ++ nullErr "first_name" r.first_name ++ nullErr "last_name" r.last_name
      ++ nullErr "title" r.title ++ phoneColErrs ext r ++ createdColErrs ext r
      ++ lastModifiedColErrs ext r
    ∧ (v = true ↔ errs = []) := by
  obtain ⟨rid, rst, rco, rem, rfn, rln, rti, rph, rcd, rlm⟩ := r
  unfold contact_validate at h
  unfold emailColErrs phoneColErrs createdColErrs lastModifiedColErrs
  cases rph with
  | none => simp at h
  | some p =>
    cases rlm with
    | none =>
      simp only [Except.ok.injEq, Prod.mk.injEq] at h
      obtain ⟨hv, he⟩ := h
      subst hv he
      constructor
      · simp [colErrs_total]
      · exact List.isEmpty_iff
    | some s =>
      simp only [] at h
      cases hlmres : contact_validate_last_modified ext
          (createdAttrOf ext ⟨rid, rst, rco, rem, rfn, rln, rti,
            some p, rcd, some s⟩) s with
      | ok t' =>
        rw [hlmres] at h
        simp only [Except.ok.injEq, Prod.mk.injEq] at h
        obtain ⟨hv, he⟩ := h
        subst hv he
        constructor
        · simp [hlmres, colErrs_total]
        · exact List.isEmpty_iff
      | error pe =>
        cases pe with
        | valueError m =>
          rw [hlmres] at h
          simp only [Except.ok.injEq, Prod.mk.injEq] at h
          obtain ⟨hv, he⟩ := h
          subst hv he
          constructor
          · simp [hlmres, colErrs_total]
          · exact List.isEmpty_iff
        | attributeError => rw [hlmres] at h; simp at h
        | typeError => rw [hlmres] at h; simp at h
        | integrityError => rw [hlmres] at h; simp at h

/-- C4: the validation engine collects all field errors instead of
failing fast: whenever `Contact` validation returns, its error list is
exactly the concatenation of the per-column error lists — each a
standalone function of the record, so a failure in one column never
suppresses the check of another — and `isValid` is `true` iff the
accumulated list (construction-time errors included) is empty. -/
theorem contact_validate_collects_all_errors (ext : ExtDeps)
    (storedEmails init : List String) (r : ContactRec) (v : Bool) (errs : List String)
    (h : contact_validate ext storedEmails init r = .ok (v, errs)) :
    errs = init ++ nullErr "id" r.id ++ nullErr "status_id" r.status_id
      ++ nullErr "company_id" r.company_id ++ emailColErrs ext storedEmails r
      ++ nullErr "first_name" r.first_name ++ nullErr "last_name" r.last_name
      ++ nullErr "title" r.title ++ phoneColErrs ext r ++ createdColErrs ext r
      ++ lastModifiedColErrs ext r
    ∧ (v = true ↔ errs = []) :=
  contact_validate_errs_decomp ext storedEmails init r v errs h

/-- C4 witness: a record with a bad email and a bad phone evaluates to
exactly the two error strings, and the theorem applies to it. -/
theorem contact_validate_collects_all_errors_witness :
    (contact_validate extW [] [] contactTwoBad = Except.ok (false,
      ["email: bad is not a valid email address.",
       "phone: xyz is not a valid. Please provide a valid phone number in international format."]))
    ∧ (["email: bad is not a valid email address.",
        "phone: xyz is not a valid. Please provide a valid phone number in international format."] =
      [] ++ nullErr "id" contactTwoBad.id ++ nullErr "status_id" contactTwoBad.status_id
      ++ nullErr "company_id" contactTwoBad.company_id
      ++ emailColErrs extW [] contactTwoBad
      ++ nullErr "first_name" contactTwoBad.first_name
      ++ nullErr "last_name" contactTwoBad.last_name
      ++ nullErr "title" contactTwoBad.title ++ phoneColErrs extW contactTwoBad
      ++ createdColErrs extW contactTwoBad ++ lastModifiedColErrs extW contactTwoBad)
    ∧ ((false : Bool) = true ↔
      (["email: bad is not a valid email address.",
        "phone: xyz is not a valid. Please provide a valid phone number in international format."] :
        List String) = []) :=
  ⟨rfl,
   (contact_validate_collects_all_errors extW [] [] contactTwoBad false _ rfl).1,
   (contact_validate_collects_all_errors extW [] [] contactTwoBad false _ rfl).2⟩

theorem lexLeChars_refl : ∀ cs, lexLeChars cs cs = true
  | [] => rfl
  | c :: cs => by simp [lexLeChars, lexLeChars_refl cs]

theorem lexLeChars_total : ∀ a b, lexLeChars a b = true ∨ lexLeChars b a = true
  | [], _ => .inl rfl
  | _ :: _, [] => .inr rfl
  | c :: cs, d :: ds => by
    rcases Nat.lt_trichotomy c.toNat d.toNat with h | h | h
    · left; simp [lexLeChars, h]
    · have h1 : ¬ c.toNat < d.toNat := by omega
      have h2 : ¬ d.toNat < c.toNat := by omega
      rcases lexLeChars_total cs ds with ih | ih
      · left; simp [lexLeChars, h1, h2, ih]
      · right; simp [lexLeChars, h1, h2, ih]
    · right; simp [lexLeChars, h]

theorem lexLeChars_trans : ∀ a b c, lexLeChars a b = true → lexLeChars b c = true →
    lexLeChars a c = true
  | [], _, _ => fun _ _ => rfl
  | x :: xs, [], _ => by intro h _; simp [lexLeChars] at h
  | _ :: _, _ :: _, [] => by intro _ h; simp [lexLeChars] at h
  | x :: xs, y :: ys, z :: zs => by
    intro h1 h2
    by_cases hxy : x.toNat < y.toNat <;> by_cases hyz : y.toNat < z.toNat
    · have hxz : x.toNat < z.toNat := by omega
      simp [lexLeChars, hxz]
    · by_cases hzy : z.toNat < y.toNat
      · rw [lexLeChars] at h2; simp [hyz, hzy] at h2
      · have hxz : x.toNat < z.toNat := by omega
        simp [lexLeChars, hxz]
    · by_cases hyx : y.toNat < x.toNat
      · rw [lexLeChars] at h1; simp [hxy, hyx] at h1
      · have hxz : x.toNat < z.toNat := by omega
        simp [lexLeChars, hxz]
    · by_cases hyx : y.toNat < x.toNat
      · rw [lexLeChars] at h1; simp [hxy, hyx] at h1
      · by_cases hzy : z.toNat < y.toNat
        · rw [lexLeChars] at h2; simp [hyz, hzy] at h2
        · have hxz : ¬ x.toNat < z.toNat := by omega
          have hzx : ¬ z.toNat < x.toNat := by omega
          rw [lexLeChars] at h1 h2 ⊢
          simp only [if_neg hxy, if_neg hyx] at h1
          simp only [if_neg hyz, if_neg hzy] at h2
          simp only [if_neg hxz, if_neg hzx]
          exact lexLeChars_trans xs ys zs h1 h2

theorem lmDescBefore_refl (a : ContactInput) : lmDescBefore a a = true := by
  unfold lmDescBefore
  cases a.last_modified <;> simp [lexLeChars_refl]

theorem lmDescBefore_total (a b : ContactInput) :
    lmDescBefore a b = true ∨ lmDescBefore b a = true := by
  unfold lmDescBefore
  cases a.last_modified with
  | none => cases b.last_modified <;> simp
  | some x =>
    cases b.last_modified with
    | none => simp
    | some y => exact lexLeChars_total y.data x.data

theorem lmDescBefore_trans (a b c : ContactInput) (h1 : lmDescBefore a b = true)
    (h2 : lmDescBefore b c = true) : lmDescBefore a c = true := by
  unfold lmDescBefore at h1 h2 ⊢
  cases ha : a.last_modified with
  | none =>
    rw [ha] at h1
    cases hb : b.last_modified with
    | none =>
      rw [hb] at h2
      cases hc : c.last_modified with
      | none => rfl
      | some z => rw [hc] at h2; simp at h2
    | some y => rw [hb] at h1; simp at h1
  | some x =>
    cases hc : c.last_modified with
    | none => rfl
    | some z =>
      rw [ha] at h1
      rw [hc] at h2
      cases hb : b.last_modified with
      | none => rw [hb] at h2; simp at h2
      | some y =>
        rw [hb] at h1 h2
        exact lexLeChars_trans z.data y.data x.data h2 h1

/-- C5: contact same-run dedup is by recency. In the deduplicated batch:
emails are unique; every surviving record comes from the batch; every
batch email survives through some record; and each survivor is at least
as recent (in the descending `last_modified` sort order, missing values
last) as every batch record sharing its email — so two records with one
email and different `last_modified` values collapse to the more recently
modified one, carrying that record's field values. -/
theorem contact_dedup_by_recency (batch : List ContactInput) :
    (∀ r1 ∈ contactDedupBatch batch, ∀ r2 ∈ contactDedupBatch batch,
      r1.email = r2.email → r1 = r2)
    ∧ (∀ r ∈ contactDedupBatch batch, r ∈ batch)
    ∧ (∀ g ∈ batch, ∃ r ∈ contactDedupBatch batch, r.email = g.email)
    ∧ (∀ r ∈ contactDedupBatch batch, ∀ g ∈ batch, g.email = r.email →
      lmDescBefore r g = true) := by
  have hperm := List.perm_insertionSort contactSortRel batch
  haveI htotal : IsTotal ContactInput contactSortRel :=
    ⟨fun a b => lmDescBefore_total a b⟩
  haveI htrans : IsTrans ContactInput contactSortRel :=
    ⟨fun a b c => lmDescBefore_trans a b c⟩
  have hsorted : List.Sorted contactSortRel (List.insertionSort contactSortRel batch) :=
    List.sorted_insertionSort contactSortRel batch
  refine ⟨?_, ?_, ?_, ?_⟩
  · intro r1 h1 r2 h2 he
    have hnodup := keepFirstByKey_keys_nodup (fun c : ContactInput => c.email) []
      (List.insertionSort contactSortRel batch)
    exact List.inj_on_of_nodup_map hnodup h1 h2 he
  · intro r hr
    exact hperm.mem_iff.mp
      (keepFirstByKey_subset (fun c : ContactInput => c.email) [] _ r hr)
  · intro g hg
    rcases keepFirstByKey_covers (fun c : ContactInput => c.email) []
        (List.insertionSort contactSortRel batch) g (hperm.mem_iff.mpr hg) (by simp)
      with ⟨r, hr, hkr⟩
    exact ⟨r, hr, hkr⟩
  · intro r hr g hg hge
    have hgs : g ∈ List.insertionSort contactSortRel batch := hperm.mem_iff.mpr hg
    have hfil := keepFirstByKey_filter (fun c : ContactInput => c.email) r.email []
      (List.insertionSort contactSortRel batch)
    rw [if_neg (by simp : ¬ (r.email ∈ ([] : List (Option String))))] at hfil
    have hrmem : r ∈ (contactDedupBatch batch).filter (fun c => c.email = r.email) :=
      List.mem_filter.mpr ⟨hr, by simp⟩
    unfold contactDedupBatch at hrmem
    rw [hfil] at hrmem
    have hgL : g ∈ (List.insertionSort contactSortRel batch).filter
        (fun c => c.email = r.email) :=
      List.mem_filter.mpr ⟨hgs, by simp [hge]⟩
    have hpw : ((List.insertionSort contactSortRel batch).filter
        (fun c => c.email = r.email)).Pairwise contactSortRel :=
      List.Pairwise.sublist (List.filter_sublist _) hsorted
    cases hL : (List.insertionSort contactSortRel batch).filter
        (fun c => c.email = r.email) with
    | nil => rw [hL] at hgL; simp at hgL
    | cons x tail =>
      rw [hL] at hrmem hgL hpw
      simp only [List.take_succ_cons, List.take_zero, List.mem_singleton] at hrmem
      subst hrmem
      rcases List.mem_cons.mp hgL with rfl | hgtail
      · exact lmDescBefore_refl g
      · exact (List.pairwise_cons.mp hpw).1 g hgtail

/-- C9: the validation-error accumulator is class-level shared state:
constructing a new `Pipeline` leaves the accumulated lists untouched,
and a later run's error artifact contains every error any earlier run
left in the accumulator, on top of the errors the run itself
produced. -/
theorem pipeline_errors_accumulate_across_runs (ext : ExtDeps) (cls : RunErrors)
    (path errors_path : String) (s : Store) (inp : Inputs) :
    (pipelineInit cls path errors_path).1 = cls
    ∧ (∀ s' errs', runPipelineAcc ext cls s inp = Except.ok (s', errs') →
        ∃ produced, runPipeline ext s inp = Except.ok (s', produced)
          ∧ errs' = accAppend cls produced
          ∧ (∀ x ∈ cls.companies, x ∈ (log_errors errs').companies)
          ∧ (∀ x ∈ cls.contacts, x ∈ (log_errors errs').contacts)
          ∧ (∀ x ∈ cls.opportunities, x ∈ (log_errors errs').opportunities)
          ∧ (∀ x ∈ cls.activities, x ∈ (log_errors errs').activities)) := by
  refine ⟨rfl, ?_⟩
  intro s' errs' h
  unfold runPipelineAcc at h
  cases hrun : runPipeline ext s inp with
  | error e => rw [hrun] at h; exact absurd h (by simp)
  | ok res =>
    rw [hrun] at h
    obtain ⟨s0, produced⟩ := res
    simp only [Except.ok.injEq, Prod.mk.injEq] at h
    obtain ⟨rfl, rfl⟩ := h
    refine ⟨produced, rfl, rfl, ?_, ?_, ?_, ?_⟩ <;>
      · intro x hx
        exact List.mem_append_left _ hx

theorem filterMap_sublist_of_pointwise {α β : Type} (l : List α) (f g : α → Option β)
    (h : ∀ c ∈ l, g c = none ∨ g c = f c) :
    (l.filterMap g).Sublist (l.filterMap f) := by
  induction l with
  | nil => simp
  | cons a t ih =>
    have ih' := ih (fun c hc => h c (List.mem_cons_of_mem _ hc))
    rcases h a (List.mem_cons_self _ _) with ha | ha
    · rw [List.filterMap_cons, ha]
      cases hf : f a with
      | none => rw [List.filterMap_cons, hf]; exact ih'
      | some b => rw [List.filterMap_cons, hf]; exact ih'.cons b
    · rw [List.filterMap_cons, List.filterMap_cons, ha]
      cases hf : f a with
      | none => exact ih'
      | some b => exact ih'.cons₂ b

theorem filterMap_fst_congr {α β γ : Type} (l : List α) (f g : α → Option (β × γ))
    (h : ∀ c ∈ l, Option.map Prod.fst (g c) = Option.map Prod.fst (f c)) :
    (l.filterMap g).map Prod.fst = (l.filterMap f).map Prod.fst := by
  induction l with
  | nil => simp
  | cons a t ih =>
    have ih' := ih (fun c hc => h c (List.mem_cons_of_mem _ hc))
    have ha := h a (List.mem_cons_self _ _)
    rw [List.filterMap_cons, List.filterMap_cons]
    cases hg : g a with
    | none =>
      rw [hg] at ha
      cases hf : f a with
      | none => exact ih'
      | some b => rw [hf] at ha; simp at ha
    | some b =>
      rw [hg] at ha
      cases hf : f a with
      | none => rw [hf] at ha; simp at ha
      | some b' =>
        rw [hf] at ha
        simp at ha
        simp [ih', ha]

theorem filter_filterMap_eq {α β : Type} (l : List α) (p : α → Bool) (f : α → Option β) :
    (l.filter p).filterMap f = l.filterMap (fun a => if p a then f a else none) := by
  induction l with
  | nil => simp
  | cons a t ih =>
    rw [List.filter_cons]
    by_cases hp : p a
    · rw [if_pos hp, List.filterMap_cons, List.filterMap_cons, if_pos hp]
      cases f a <;> simp [ih]
    · rw [if_neg (by simpa using hp), List.filterMap_cons, if_neg hp]
      exact ih

theorem splitValid_all_invalid {ρ : Type} (recId : ρ → String)
    (validate : ρ → Bool × List String) (recs : List ρ)
    (h : ∀ c ∈ recs, (validate c).1 = false) :
    splitValid recId validate recs =
      (recs.filterMap (fun c => if (validate c).1 then none
        else some (recId c, (validate c).2)), []) := by
  unfold splitValid
  rw [List.filter_eq_nil_iff.mpr (fun c hc => by simp [h c hc])]

theorem splitValidE_ok_spec {ρ : Type} (recId : ρ → String)
    (validate : ρ → Except PyErr (Bool × List String)) :
    ∀ (recs : List ρ) (errs : List (String × List String)) (tc : List ρ),
      splitValidE recId validate recs = .ok (errs, tc) →
      (∀ c ∈ recs, exceptOk (validate c) = true)
      ∧ errs = recs.filterMap (errEntry recId validate)
      ∧ tc = recs.filter (validOutcome validate) := by
  intro recs
  induction recs with
  | nil =>
    intro errs tc h
    simp only [splitValidE, Except.ok.injEq, Prod.mk.injEq] at h
    obtain ⟨rfl, rfl⟩ := h
    simp
  | cons c cs ih =>
    intro errs tc h
    unfold splitValidE at h
    cases hv : validate c with
    | error e => rw [hv] at h; simp at h
    | ok ves =>
      obtain ⟨v, es⟩ := ves
      rw [hv] at h
      cases hrest : splitValidE recId validate cs with
      | error e => rw [hrest] at h; simp at h
      | ok rest =>
        obtain ⟨errs0, tc0⟩ := rest
        rw [hrest] at h
        obtain ⟨hall, herrs, htc⟩ := ih errs0 tc0 hrest
        cases v with
        | true =>
          simp only [if_pos rfl, Except.ok.injEq, Prod.mk.injEq] at h
          obtain ⟨rfl, rfl⟩ := h
          refine ⟨?_, ?_, ?_⟩
          · intro x hx
            rcases List.mem_cons.mp hx with rfl | hx
            · simp [exceptOk, hv]
            · exact hall x hx
          · rw [List.filterMap_cons]
            simp only [errEntry, hv, if_pos rfl]
            exact herrs
          · rw [List.filter_cons]
            simp only [validOutcome, hv]
            rw [if_pos (by simp)]
            exact htc ▸ rfl
        | false =>
          simp only [Bool.false_eq_true, if_false, Except.ok.injEq, Prod.mk.injEq] at h
          obtain ⟨rfl, rfl⟩ := h
          refine ⟨?_, ?_, ?_⟩
          · intro x hx
            rcases List.mem_cons.mp hx with rfl | hx
            · simp [exceptOk, hv]
            · exact hall x hx
          · rw [List.filterMap_cons]
            simp only [errEntry, hv, Bool.false_eq_true, if_false]
            exact herrs ▸ rfl
          · rw [List.filter_cons]
            simp only [validOutcome, hv]
            rw [if_neg (by simp)]
            exact htc

theorem splitValidE_all_invalid {ρ : Type} (recId : ρ → String)
    (validate : ρ → Except PyErr (Bool × List String)) :
    ∀ (recs : List ρ),
      (∀ c ∈ recs, validOutcome validate c = false ∧ exceptOk (validate c) = true) →
      splitValidE recId validate recs =
        .ok (recs.filterMap (errEntry recId validate), []) := by
  intro recs
  induction recs with
  | nil => intro _; rfl
  | cons c cs ih =>
    intro h
    obtain ⟨hvc, hokc⟩ := h c (List.mem_cons_self _ _)
    unfold splitValidE
    cases hv : validate c with
    | error e => rw [hv] at hokc; simp [exceptOk] at hokc
    | ok ves =>
      obtain ⟨v, es⟩ := ves
      have : v = false := by
        unfold validOutcome at hvc
        rw [hv] at hvc
        exact hvc
      subst this
      rw [ih (fun x hx => h x (List.mem_cons_of_mem _ hx))]
      rw [List.filterMap_cons]
      simp [errEntry, hv]

theorem mem_of_getLast?_eq {α : Type} {l : List α} {a : α}
    (h : l.getLast? = some a) : a ∈ l := by
  have h' : a ∈ l.getLast? := h
  rcases List.mem_getLast?_eq_getLast h' with ⟨hne, rfl⟩
  exact List.getLast_mem hne

theorem lastWithKey_mem {ρ : Type} (key : ρ → String) (k : String) (l : List ρ)
    (c : ρ) (h : lastWithKey key k l = some c) : c ∈ l ∧ key c = k := by
  unfold lastWithKey at h
  have hmem := mem_of_getLast?_eq h
  rw [List.mem_filter] at hmem
  exact ⟨hmem.1, by simpa using hmem.2⟩

theorem lastWithKey_isSome {ρ : Type} (key : ρ → String) (k : String) (l : List ρ)
    (hk : k ∈ l.map key) : ∃ c, lastWithKey key k l = some c := by
  unfold lastWithKey
  rcases List.mem_map.mp hk with ⟨x, hx, rfl⟩
  have hmem : x ∈ l.filter (fun r => key r = key x) :=
    List.mem_filter.mpr ⟨hx, by simp⟩
  have hne := List.ne_nil_of_mem hmem
  cases hg : (l.filter (fun r => key r = key x)).getLast? with
  | none => exact absurd (List.getLast?_eq_none_iff.mp hg) hne
  | some c => exact ⟨c, rfl⟩

theorem dictWinners_subset {ρ : Type} (key : ρ → String) (l : List ρ) :
    ∀ c ∈ dictWinners key l, c ∈ l := by
  intro c hc
  unfold dictWinners at hc
  rcases List.mem_filterMap.mp hc with ⟨k, _, hlast⟩
  exact (lastWithKey_mem key k l c hlast).1

theorem dictWinners_map_key {ρ : Type} (key : ρ → String) (l : List ρ) :
    (dictWinners key l).map key = eraseDupsFirst (l.map key) := by
  unfold dictWinners
  have : ∀ ks : List String, (∀ k ∈ ks, k ∈ l.map key) →
      ((ks.filterMap (fun k => lastWithKey key k l)).map key) = ks := by
    intro ks
    induction ks with
    | nil => intro _; rfl
    | cons k ks ih =>
      intro hks
      rcases lastWithKey_isSome key k l (hks k (List.mem_cons_self _ _)) with ⟨c, hc⟩
      rw [List.filterMap_cons, hc, List.map_cons,
        (lastWithKey_mem key k l c hc).2,
        ih (fun x hx => hks x (List.mem_cons_of_mem _ hx))]
  exact this _ (fun k hk => (eraseDupsFirst_mem _ k).mp hk)

theorem dictWinners_keys_nodup {ρ : Type} (key : ρ → String) (l : List ρ) :
    ((dictWinners key l).map key).Nodup := by
  rw [dictWinners_map_key]
  exact eraseDupsFirst_nodup _

theorem company_validate_industry_irrelevant (ext : ExtDeps) (inds1 inds2 : List String)
    (c : CompanyInput) :
    company_validate ext (companyBuild inds1 c) = company_validate ext (companyBuild inds2 c) :=
  rfl

theorem opportunity_validate_lookup_irrelevant (ext : ExtDeps)
    (st1 fc1 pr1 st2 fc2 pr2 : List String) (c : OpportunityInput) :
    opportunity_validate ext (oppBuild st1 fc1 pr1 c) =
      opportunity_validate ext (oppBuild st2 fc2 pr2 c) :=
  rfl

theorem processCompanies1_post (ext : ExtDeps) (s : Store) (chunk : List CompanyInput)
    (s' : Store) (errs : List (String × List String))
    (h : processCompanies1 ext s chunk = .ok (s', errs)) :
    s'.industries = processSubEntities s.industries (chunk.map (fun c => c.industry))
    ∧ s'.contact_statuses = s.contact_statuses
    ∧ s'.stages = s.stages
    ∧ s'.forecast_categories = s.forecast_categories
    ∧ s'.products = s.products
    ∧ s'.contacts = s.contacts
    ∧ s'.opportunities = s.opportunities
    ∧ s'.activities = s.activities
    ∧ (∃ rows, s'.companies = s.companies ++ rows)
    ∧ (∀ c ∈ dictWinners (fun c : CompanyInput => c.id) chunk,
        c.id ∈ s'.companies.map Prod.fst ∨
          (company_validate ext (companyBuild s.industries c)).1 = false)
    ∧ errs = chunkErrsOf (fun c : CompanyInput => c.id)
        (fun c => company_validate ext (companyBuild s.industries c))
        (s.companies.map Prod.fst)
        (dictWinners (fun c : CompanyInput => c.id) chunk) := by
  unfold processCompanies1 at h
  simp only [splitValid] at h
  split at h
  case isFalse => simp at h
  case isTrue hcond =>
    simp only [Except.ok.injEq, Prod.mk.injEq] at h
    obtain ⟨hs, herrs⟩ := h
    subst hs herrs
    refine ⟨rfl, rfl, rfl, rfl, rfl, rfl, rfl, rfl, ⟨_, rfl⟩, ?_, ?_⟩
    · intro c hc
      by_cases hmem : c.id ∈ s.companies.map Prod.fst
      · left
        simp only [List.map_append]
        exact List.mem_append_left _ hmem
      · by_cases hval : (company_validate ext (companyBuild s.industries c)).1 = true
        · left
          have hval2 : (company_validate ext
              (companyBuild (processSubEntities s.industries
                (chunk.map (fun c => c.industry))) c)).1 = true := by
            rw [company_validate_industry_irrelevant ext _ s.industries]
            exact hval
          have hnovel : c ∈ (dictWinners (fun c : CompanyInput => c.id) chunk).filter
              (fun c => c.id ∉ s.companies.map Prod.fst) :=
            List.mem_filter.mpr ⟨hc, by simpa using hmem⟩
          have htc : c ∈ ((dictWinners (fun c : CompanyInput => c.id) chunk).filter
              (fun c => c.id ∉ s.companies.map Prod.fst)).filter
                (fun c => (company_validate ext (companyBuild (processSubEntities
                  s.industries (chunk.map (fun c => c.industry))) c)).1) :=
            List.mem_filter.mpr ⟨hnovel, hval2⟩
          simp only [List.map_append]
          refine List.mem_append_right _ ?_
          rw [List.map_map]
          exact List.mem_map.mpr ⟨c, htc, rfl⟩
        · right
          simpa using hval
    · unfold chunkErrsOf
      refine List.filterMap_congr ?_
      intro c _
      rw [company_validate_industry_irrelevant ext
        (processSubEntities s.industries (chunk.map (fun c => c.industry))) s.industries]

theorem processCompanies1_noop (ext : ExtDeps) (t : Store) (chunk : List CompanyInput)
    (hI : ∀ v ∈ chunk.map (fun c => c.industry), clean_text v false ∈ t.industries)
    (hV : ∀ c ∈ dictWinners (fun c : CompanyInput => c.id) chunk,
        c.id ∉ t.companies.map Prod.fst →
        (company_validate ext (companyBuild t.industries c)).1 = false) :
    processCompanies1 ext t chunk = .ok (t,
      chunkErrsOf (fun c : CompanyInput => c.id)
        (fun c => company_validate ext (companyBuild t.industries c))
        (t.companies.map Prod.fst)
        (dictWinners (fun c : CompanyInput => c.id) chunk)) := by
  have hnoop : processSubEntities t.industries (chunk.map (fun c => c.industry)) =
      t.industries :=
    processSubEntities_noop _ _ hI
  have hfilter : ((dictWinners (fun c : CompanyInput => c.id) chunk).filter
      (fun c => c.id ∉ t.companies.map Prod.fst)).filter
        (fun c => (company_validate ext (companyBuild t.industries c)).1) = [] := by
    rw [List.filter_eq_nil_iff]
    intro c hc
    rw [List.mem_filter] at hc
    simp [hV c hc.1 (by simpa using hc.2)]
  unfold processCompanies1
  rw [hnoop]
  simp only [splitValid]
  rw [hfilter]
  simp [chunkErrsOf]

theorem processCompaniesAll_post (ext : ExtDeps) :
    ∀ (chunks : List (List CompanyInput)) (s s' : Store)
      (errs : List (String × List String)),
      processCompaniesAll ext s chunks = .ok (s', errs) →
      (∃ inds, s'.industries = s.industries ++ inds)
      ∧ (∃ rows, s'.companies = s.companies ++ rows)
      ∧ s'.contact_statuses = s.contact_statuses
      ∧ s'.stages = s.stages
      ∧ s'.forecast_categories = s.forecast_categories
      ∧ s'.products = s.products
      ∧ s'.contacts = s.contacts
      ∧ s'.opportunities = s.opportunities
      ∧ s'.activities = s.activities := by
  intro chunks
  induction chunks with
  | nil =>
    intro s s' errs h
    simp only [processCompaniesAll, Except.ok.injEq, Prod.mk.injEq] at h
    obtain ⟨rfl, rfl⟩ := h
    exact ⟨⟨[], by simp⟩, ⟨[], by simp⟩, rfl, rfl, rfl, rfl, rfl, rfl, rfl⟩
  | cons ch chunks ih =>
    intro s s' errs h
    unfold processCompaniesAll at h
    cases h1 : processCompanies1 ext s ch with
    | error e => rw [h1] at h; simp at h
    | ok r1 =>
      obtain ⟨s1, e1⟩ := r1
      rw [h1] at h
      simp only [] at h
      cases h2 : processCompaniesAll ext s1 chunks with
      | error e => rw [h2] at h; simp at h
      | ok r2 =>
        obtain ⟨s2, e2⟩ := r2
        rw [h2] at h
        simp only [Except.ok.injEq, Prod.mk.injEq] at h
        obtain ⟨rfl, rfl⟩ := h
        obtain ⟨hI1, hcs1, hst1, hfc1, hpr1, hct1, hop1, hac1, ⟨rows1, hRows1⟩, _, _⟩ :=
          processCompanies1_post ext s ch s1 e1 h1
        obtain ⟨⟨inds2, hI2⟩, ⟨rows2, hRows2⟩, hcs2, hst2, hfc2, hpr2, hct2, hop2, hac2⟩ :=
          ih s1 s2 e2 h2
        refine ⟨⟨?_, ?_⟩, ⟨rows1 ++ rows2, ?_⟩, ?_, ?_, ?_, ?_, ?_, ?_, ?_⟩
        · exact (eraseDupsFirst ((ch.map (fun c => c.industry)).map
            (fun v => clean_text v false))).filter (fun n => n ∉ s.industries) ++ inds2
        · rw [hI2, hI1]
          unfold processSubEntities
          rw [List.append_assoc]
        · rw [hRows2, hRows1, List.append_assoc]
        · rw [hcs2, hcs1]
        · rw [hst2, hst1]
        · rw [hfc2, hfc1]
        · rw [hpr2, hpr1]
        · rw [hct2, hct1]
        · rw [hop2, hop1]
        · rw [hac2, hac1]

theorem processCompaniesAll_idem (ext : ExtDeps) :
    ∀ (chunks : List (List CompanyInput)) (s s' : Store)
      (errs : List (String × List String)) (t : Store),
      processCompaniesAll ext s chunks = .ok (s', errs) →
      t.industries = s'.industries → t.companies = s'.companies →
      ∃ errs2, processCompaniesAll ext t chunks = .ok (t, errs2) ∧ errs2.Sublist errs := by
  intro chunks
  induction chunks with
  | nil =>
    intro s s' errs t h _ _
    simp only [processCompaniesAll, Except.ok.injEq, Prod.mk.injEq] at h
    obtain ⟨rfl, rfl⟩ := h
    exact ⟨[], rfl, by simp⟩
  | cons ch chunks ih =>
    intro s s' errs t h hTI hTC
    unfold processCompaniesAll at h
    cases h1 : processCompanies1 ext s ch with
    | error e => rw [h1] at h; simp at h
    | ok r1 =>
      obtain ⟨s1, e1⟩ := r1
      rw [h1] at h
      simp only [] at h
      cases h2 : processCompaniesAll ext s1 chunks with
      | error e => rw [h2] at h; simp at h
      | ok r2 =>
        obtain ⟨s2, e2⟩ := r2
        rw [h2] at h
        simp only [Except.ok.injEq, Prod.mk.injEq] at h
        obtain ⟨rfl, rfl⟩ := h
        obtain ⟨hI1, _, _, _, _, _, _, _, ⟨rows1, hRows1⟩, hWin1, hErrs1⟩ :=
          processCompanies1_post ext s ch s1 e1 h1
        obtain ⟨⟨inds2, hI2⟩, ⟨rows2, hRows2⟩, _⟩ :=
          processCompaniesAll_post ext chunks s1 s2 e2 h2
        have hIt : ∀ v ∈ ch.map (fun c => c.industry),
            clean_text v false ∈ t.industries := by
          intro v hv
          rw [hTI, hI2]
          refine List.mem_append_left _ ?_
          rw [hI1]
          exact processSubEntities_mem_of s.industries _ v hv
        have hVt : ∀ c ∈ dictWinners (fun c : CompanyInput => c.id) ch,
            c.id ∉ t.companies.map Prod.fst →
            (company_validate ext (companyBuild t.industries c)).1 = false := by
          intro c hc hmem
          have hnotmem1 : c.id ∉ s1.companies.map Prod.fst := by
            intro hmem1
            apply hmem
            rw [hTC, hRows2, List.map_append]
            exact List.mem_append_left _ hmem1
          rcases hWin1 c hc with h' | h'
          · exact absurd h' hnotmem1
          · rw [company_validate_industry_irrelevant ext t.industries s.industries]
            exact h'
        have hnoop := processCompanies1_noop ext t ch hIt hVt
        have hsub1 : (chunkErrsOf (fun c : CompanyInput => c.id)
            (fun c => company_validate ext (companyBuild t.industries c))
            (t.companies.map Prod.fst)
            (dictWinners (fun c : CompanyInput => c.id) ch)).Sublist e1 := by
          rw [hErrs1]
          unfold chunkErrsOf
          rw [filter_filterMap_eq, filter_filterMap_eq]
          apply filterMap_sublist_of_pointwise
          intro c _
          by_cases hmt : c.id ∈ t.companies.map Prod.fst
          · left; simp [hmt]
          · have hms : c.id ∉ s.companies.map Prod.fst := by
              intro hs
              apply hmt
              rw [hTC, hRows2, hRows1]
              simp only [List.map_append]
              exact List.mem_append_left _ (List.mem_append_left _ hs)
            right
            have hvv := company_validate_industry_irrelevant ext t.industries s.industries c
            simp only [hvv]
            simp [hmt, hms]
        rcases ih s1 s2 e2 t h2 (by rw [hTI]) (by rw [hTC]) with ⟨e2', hall2, hsub2⟩
        refine ⟨_ ++ e2', ?_, List.Sublist.append hsub1 hsub2⟩
        unfold processCompaniesAll
        rw [hnoop]
        simp only []
        rw [hall2]

theorem processOpportunities1_post (ext : ExtDeps) (s : Store)
    (chunk : List OpportunityInput) :
    (processOpportunities1 ext s chunk).1.stages =
        processSubEntities s.stages (chunk.map (fun c => c.stage))
    ∧ (processOpportunities1 ext s chunk).1.forecast_categories =
        processSubEntities s.forecast_categories (chunk.map (fun c => c.forecast_category))
    ∧ (processOpportunities1 ext s chunk).1.products =
        processSubEntities s.products (chunk.map (fun c => c.product))
    ∧ (processOpportunities1 ext s chunk).1.industries = s.industries
    ∧ (processOpportunities1 ext s chunk).1.contact_statuses = s.contact_statuses
    ∧ (processOpportunities1 ext s chunk).1.companies = s.companies
    ∧ (processOpportunities1 ext s chunk).1.contacts = s.contacts
    ∧ (processOpportunities1 ext s chunk).1.activities = s.activities
    ∧ (∃ rows, (processOpportunities1 ext s chunk).1.opportunities =
        s.opportunities ++ rows)
    ∧ (∀ c ∈ dictWinners (fun c : OpportunityInput => c.id) chunk,
        c.id ∈ (processOpportunities1 ext s chunk).1.opportunities ∨
          (opportunity_validate ext (oppBuild s.stages s.forecast_categories
            s.products c)).1 = false)
    ∧ (processOpportunities1 ext s chunk).2 = chunkErrsOf
        (fun c : OpportunityInput => c.id)
        (fun c => opportunity_validate ext (oppBuild s.stages s.forecast_categories
          s.products c))
        s.opportunities
        (dictWinners (fun c : OpportunityInput => c.id) chunk) := by
  refine ⟨rfl, rfl, rfl, rfl, rfl, rfl, rfl, rfl, ⟨_, rfl⟩, ?_, ?_⟩
  · intro c hc
    by_cases hmem : c.id ∈ s.opportunities
    · left
      exact List.mem_append_left _ hmem
    · by_cases hval : (opportunity_validate ext (oppBuild s.stages
          s.forecast_categories s.products c)).1 = true
      · left
        refine List.mem_append_right _ ?_
        have hval2 : (opportunity_validate ext (oppBuild
            (processSubEntities s.stages (chunk.map (fun c => c.stage)))
            (processSubEntities s.forecast_categories
              (chunk.map (fun c => c.forecast_category)))
            (processSubEntities s.products (chunk.map (fun c => c.product)))
            c)).1 = true := by
          rw [opportunity_validate_lookup_irrelevant ext _ _ _
            s.stages s.forecast_categories s.products]
          exact hval
        have hnovel : c ∈ (dictWinners (fun c : OpportunityInput => c.id) chunk).filter
            (fun c => c.id ∉ s.opportunities) :=
          List.mem_filter.mpr ⟨hc, by simpa using hmem⟩
        have htc : c ∈ ((dictWinners (fun c : OpportunityInput => c.id) chunk).filter
            (fun c => c.id ∉ s.opportunities)).filter
              (fun c => (opportunity_validate ext (oppBuild
                (processSubEntities s.stages (chunk.map (fun c => c.stage)))
                (processSubEntities s.forecast_categories
                  (chunk.map (fun c => c.forecast_category)))
                (processSubEntities s.products (chunk.map (fun c => c.product)))
                c)).1) :=
          List.mem_filter.mpr ⟨hnovel, hval2⟩
        exact List.mem_map.mpr ⟨c, htc, rfl⟩
      · right
        simpa using hval
  · unfold chunkErrsOf
    refine List.filterMap_congr ?_
    intro c _
    have hvv := opportunity_validate_lookup_irrelevant ext
      (processSubEntities s.stages (chunk.map (fun c => c.stage)))
      (processSubEntities s.forecast_categories
        (chunk.map (fun c => c.forecast_category)))
      (processSubEntities s.products (chunk.map (fun c => c.product)))
      s.stages s.forecast_categories s.products c
    simp only [hvv]

theorem processOpportunities1_noop (ext : ExtDeps) (t : Store)
    (chunk : List OpportunityInput)
    (hS : ∀ v ∈ chunk.map (fun c => c.stage), clean_text v false ∈ t.stages)
    (hF : ∀ v ∈ chunk.map (fun c => c.forecast_category),
      clean_text v false ∈ t.forecast_categories)
    (hP : ∀ v ∈ chunk.map (fun c => c.product), clean_text v false ∈ t.products)
    (hV : ∀ c ∈ dictWinners (fun c : OpportunityInput => c.id) chunk,
        c.id ∉ t.opportunities →
        (opportunity_validate ext (oppBuild t.stages t.forecast_categories
          t.products c)).1 = false) :
    processOpportunities1 ext t chunk = (t,
      chunkErrsOf (fun c : OpportunityInput => c.id)
        (fun c => opportunity_validate ext (oppBuild t.stages t.forecast_categories
          t.products c))
        t.opportunities
        (dictWinners (fun c : OpportunityInput => c.id) chunk)) := by
  have hfilter : ((dictWinners (fun c : OpportunityInput => c.id) chunk).filter
      (fun c => c.id ∉ t.opportunities)).filter
        (fun c => (opportunity_validate ext (oppBuild t.stages t.forecast_categories
          t.products c)).1) = [] := by
    rw [List.filter_eq_nil_iff]
    intro c hc
    rw [List.mem_filter] at hc
    simp [hV c hc.1 (by simpa using hc.2)]
  unfold processOpportunities1
  rw [processSubEntities_noop _ _ hS, processSubEntities_noop _ _ hF,
    processSubEntities_noop _ _ hP]
  simp only [splitValid]
  rw [hfilter]
  simp [chunkErrsOf]

theorem processOpportunitiesAll_post (ext : ExtDeps) :
    ∀ (chunks : List (List OpportunityInput)) (s : Store),
      ((processOpportunitiesAll ext s chunks).1.industries = s.industries)
      ∧ (processOpportunitiesAll ext s chunks).1.contact_statuses = s.contact_statuses
      ∧ (∃ l, (processOpportunitiesAll ext s chunks).1.stages = s.stages ++ l)
      ∧ (∃ l, (processOpportunitiesAll ext s chunks).1.forecast_categories =
          s.forecast_categories ++ l)
      ∧ (∃ l, (processOpportunitiesAll ext s chunks).1.products = s.products ++ l)
      ∧ (processOpportunitiesAll ext s chunks).1.companies = s.companies
      ∧ (processOpportunitiesAll ext s chunks).1.contacts = s.contacts
      ∧ (∃ l, (processOpportunitiesAll ext s chunks).1.opportunities =
          s.opportunities ++ l)
      ∧ (processOpportunitiesAll ext s chunks).1.activities = s.activities := by
  intro chunks
  induction chunks with
  | nil =>
    intro s
    exact ⟨rfl, rfl, ⟨[], by simp [processOpportunitiesAll]⟩,
      ⟨[], by simp [processOpportunitiesAll]⟩, ⟨[], by simp [processOpportunitiesAll]⟩,
      rfl, rfl, ⟨[], by simp [processOpportunitiesAll]⟩, rfl⟩
  | cons ch chunks ih =>
    intro s
    obtain ⟨hst1, hfc1, hpr1, hin1, hcs1, hco1, hct1, hac1, ⟨rows1, hop1⟩, -, -⟩ :=
      processOpportunities1_post ext s ch
    obtain ⟨ihin, ihcs, ⟨l2, ihst⟩, ⟨l3, ihfc⟩, ⟨l4, ihpr⟩, ihco, ihct, ⟨l5, ihop⟩, ihac⟩ :=
      ih (processOpportunities1 ext s ch).1
    have hstep : processOpportunitiesAll ext s (ch :: chunks) =
        ((processOpportunitiesAll ext (processOpportunities1 ext s ch).1 chunks).1,
         (processOpportunities1 ext s ch).2 ++
           (processOpportunitiesAll ext (processOpportunities1 ext s ch).1 chunks).2) := by
      rfl
    rw [hstep]
    refine ⟨?_, ?_, ⟨?_, ?_⟩, ⟨?_, ?_⟩, ⟨?_, ?_⟩, ?_, ?_, ⟨?_, ?_⟩, ?_⟩
    · rw [ihin, hin1]
    · rw [ihcs, hcs1]
    · exact (eraseDupsFirst ((ch.map (fun c => c.stage)).map
        (fun v => clean_text v false))).filter (fun n => n ∉ s.stages) ++ l2
    · rw [ihst, hst1]
      unfold processSubEntities
      rw [List.append_assoc]
    · exact (eraseDupsFirst ((ch.map (fun c => c.forecast_category)).map
        (fun v => clean_text v false))).filter
          (fun n => n ∉ s.forecast_categories) ++ l3
    · rw [ihfc, hfc1]
      unfold processSubEntities
      rw [List.append_assoc]
    · exact (eraseDupsFirst ((ch.map (fun c => c.product)).map
        (fun v => clean_text v false))).filter (fun n => n ∉ s.products) ++ l4
    · rw [ihpr, hpr1]
      unfold processSubEntities
      rw [List.append_assoc]
    · rw [ihco, hco1]
    · rw [ihct, hct1]
    · exact rows1 ++ l5
    · rw [ihop, hop1, List.append_assoc]
    · rw [ihac, hac1]

theorem processOpportunitiesAll_idem (ext : ExtDeps) :
    ∀ (chunks : List (List OpportunityInput)) (s t : Store),
      t.stages = (processOpportunitiesAll ext s chunks).1.stages →
      t.forecast_categories = (processOpportunitiesAll ext s chunks).1.forecast_categories →
      t.products = (processOpportunitiesAll ext s chunks).1.products →
      t.opportunities = (processOpportunitiesAll ext s chunks).1.opportunities →
      ∃ errs2, processOpportunitiesAll ext t chunks = (t, errs2)
        ∧ errs2.Sublist (processOpportunitiesAll ext s chunks).2 := by
  intro chunks
  induction chunks with
  | nil =>
    intro s t _ _ _ _
    exact ⟨[], rfl, by simp [processOpportunitiesAll]⟩
  | cons ch chunks ih =>
    intro s t hTS hTF hTP hTO
    have hstep : processOpportunitiesAll ext s (ch :: chunks) =
        ((processOpportunitiesAll ext (processOpportunities1 ext s ch).1 chunks).1,
         (processOpportunities1 ext s ch).2 ++
           (processOpportunitiesAll ext (processOpportunities1 ext s ch).1 chunks).2) := rfl
    rw [hstep] at hTS hTF hTP hTO ⊢
    obtain ⟨hst1, hfc1, hpr1, _, _, _, _, _, ⟨rows1, hop1⟩, hWin1, hErrs1⟩ :=
      processOpportunities1_post ext s ch
    obtain ⟨_, _, ⟨l2, ihst⟩, ⟨l3, ihfc⟩, ⟨l4, ihpr⟩, _, _, ⟨l5, ihop⟩, _⟩ :=
      processOpportunitiesAll_post ext chunks (processOpportunities1 ext s ch).1
    have hSt : ∀ v ∈ ch.map (fun c => c.stage), clean_text v false ∈ t.stages := by
      intro v hv
      rw [hTS, ihst]
      refine List.mem_append_left _ ?_
      rw [hst1]
      exact processSubEntities_mem_of s.stages _ v hv
    have hFt : ∀ v ∈ ch.map (fun c => c.forecast_category),
        clean_text v false ∈ t.forecast_categories := by
      intro v hv
      rw [hTF, ihfc]
      refine List.mem_append_left _ ?_
      rw [hfc1]
      exact processSubEntities_mem_of s.forecast_categories _ v hv
    have hPt : ∀ v ∈ ch.map (fun c => c.product), clean_text v false ∈ t.products := by
      intro v hv
      rw [hTP, ihpr]
      refine List.mem_append_left _ ?_
      rw [hpr1]
      exact processSubEntities_mem_of s.products _ v hv
    have hVt : ∀ c ∈ dictWinners (fun c : OpportunityInput => c.id) ch,
        c.id ∉ t.opportunities →
        (opportunity_validate ext (oppBuild t.stages t.forecast_categories
          t.products c)).1 = false := by
      intro c hc hmem
      have hnot1 : c.id ∉ (processOpportunities1 ext s ch).1.opportunities := by
        intro hmem1
        apply hmem
        rw [hTO, ihop]
        exact List.mem_append_left _ hmem1
      rcases hWin1 c hc with h' | h'
      · exact absurd h' hnot1
      · rw [opportunity_validate_lookup_irrelevant ext t.stages t.forecast_categories
          t.products s.stages s.forecast_categories s.products]
        exact h'
    have hnoop := processOpportunities1_noop ext t ch hSt hFt hPt hVt
    have hsub1 : (chunkErrsOf (fun c : OpportunityInput => c.id)
        (fun c => opportunity_validate ext (oppBuild t.stages t.forecast_categories
          t.products c))
        t.opportunities
        (dictWinners (fun c : OpportunityInput => c.id) ch)).Sublist
        (processOpportunities1 ext s ch).2 := by
      rw [hErrs1]
      unfold chunkErrsOf
      rw [filter_filterMap_eq, filter_filterMap_eq]
      apply filterMap_sublist_of_pointwise
      intro c _
      by_cases hmt : c.id ∈ t.opportunities
      · left; simp [hmt]
      · have hms : c.id ∉ s.opportunities := by
          intro hs
          apply hmt
          rw [hTO, ihop, hop1]
          exact List.mem_append_left _ (List.mem_append_left _ hs)
        right
        have hvv := opportunity_validate_lookup_irrelevant ext t.stages
          t.forecast_categories t.products s.stages s.forecast_categories s.products c
        simp only [hvv]
        simp [hmt, hms]
    rcases ih (processOpportunities1 ext s ch).1 t hTS hTF hTP hTO with ⟨e2', hall2, hsub2⟩
    refine ⟨_ ++ e2', ?_, List.Sublist.append hsub1 hsub2⟩
    have hstep2 : processOpportunitiesAll ext t (ch :: chunks) =
        ((processOpportunitiesAll ext (processOpportunities1 ext t ch).1 chunks).1,
         (processOpportunities1 ext t ch).2 ++
           (processOpportunitiesAll ext (processOpportunities1 ext t ch).1 chunks).2) := rfl
    rw [hstep2, hnoop, hall2]

theorem processActivities1_post (ext : ExtDeps) (s : Store) (batch : List ActivityInput) :
    (processActivities1 ext s batch).1.industries = s.industries
    ∧ (processActivities1 ext s batch).1.contact_statuses = s.contact_statuses
    ∧ (processActivities1 ext s batch).1.stages = s.stages
    ∧ (processActivities1 ext s batch).1.forecast_categories = s.forecast_categories
    ∧ (processActivities1 ext s batch).1.products = s.products
    ∧ (processActivities1 ext s batch).1.companies = s.companies
    ∧ (processActivities1 ext s batch).1.contacts = s.contacts
    ∧ (processActivities1 ext s batch).1.opportunities = s.opportunities
    ∧ (processActivities1 ext s batch).1.activities = s.activities ++
        (((dictWinners (fun c : ActivityInput => c.id) batch).filter
          (fun c => c.id ∉ s.activities)).filter
            (fun c => (activity_validate ext (activityBuild c)).1)).map (fun c => c.id)
    ∧ (∀ c ∈ dictWinners (fun c : ActivityInput => c.id) batch,
        c.id ∈ (processActivities1 ext s batch).1.activities ∨
        (activity_validate ext (activityBuild c)).1 = false)
    ∧ (processActivities1 ext s batch).2 = chunkErrsOf (fun c : ActivityInput => c.id)
        (fun c => activity_validate ext (activityBuild c)) s.activities
        (dictWinners (fun c : ActivityInput => c.id) batch) := by
  refine ⟨rfl, rfl, rfl, rfl, rfl, rfl, rfl, rfl, rfl, ?_, rfl⟩
  intro c hc
  by_cases hmem : c.id ∈ s.activities
  · left
    exact List.mem_append_left _ hmem
  · by_cases hval : (activity_validate ext (activityBuild c)).1 = true
    · left
      refine List.mem_append_right _ ?_
      have hnovel : c ∈ (dictWinners (fun c : ActivityInput => c.id) batch).filter
          (fun c => c.id ∉ s.activities) :=
        List.mem_filter.mpr ⟨hc, by simpa using hmem⟩
      have htc : c ∈ ((dictWinners (fun c : ActivityInput => c.id) batch).filter
          (fun c => c.id ∉ s.activities)).filter
            (fun c => (activity_validate ext (activityBuild c)).1) :=
        List.mem_filter.mpr ⟨hnovel, hval⟩
      exact List.mem_map.mpr ⟨c, htc, rfl⟩
    · right
      simpa using hval

theorem processActivities1_noop (ext : ExtDeps) (t : Store) (batch : List ActivityInput)
    (hV : ∀ c ∈ dictWinners (fun c : ActivityInput => c.id) batch,
        c.id ∉ t.activities → (activity_validate ext (activityBuild c)).1 = false) :
    processActivities1 ext t batch = (t,
      chunkErrsOf (fun c : ActivityInput => c.id)
        (fun c => activity_validate ext (activityBuild c)) t.activities
        (dictWinners (fun c : ActivityInput => c.id) batch)) := by
  have hfilter : ((dictWinners (fun c : ActivityInput => c.id) batch).filter
      (fun c => c.id ∉ t.activities)).filter
        (fun c => (activity_validate ext (activityBuild c)).1) = [] := by
    rw [List.filter_eq_nil_iff]
    intro c hc
    rw [List.mem_filter] at hc
    simp [hV c hc.1 (by simpa using hc.2)]
  unfold processActivities1
  simp only [splitValid]
  rw [hfilter]
  simp [chunkErrsOf]

theorem processActivities1_idem (ext : ExtDeps) (s t : Store) (batch : List ActivityInput)
    (hT : t.activities = (processActivities1 ext s batch).1.activities) :
    processActivities1 ext t batch = (t, (processActivities1 ext s batch).2) := by
  obtain ⟨_, _, _, _, _, _, _, _, hAct, hWin, hErrs⟩ := processActivities1_post ext s batch
  have hnodup := dictWinners_keys_nodup (fun c : ActivityInput => c.id) batch
  have hVt : ∀ c ∈ dictWinners (fun c : ActivityInput => c.id) batch,
      c.id ∉ t.activities → (activity_validate ext (activityBuild c)).1 = false := by
    intro c hc hmem
    rcases hWin c hc with h' | h'
    · exact absurd (hT ▸ h') hmem
    · exact h'
  rw [processActivities1_noop ext t batch hVt, hErrs]
  unfold chunkErrsOf
  rw [filter_filterMap_eq, filter_filterMap_eq]
  congr 1
  refine List.filterMap_congr ?_
  intro c hc
  by_cases hms : c.id ∈ s.activities
  · have hmt : c.id ∈ t.activities := by
      rw [hT, hAct]
      exact List.mem_append_left _ hms
    simp [hms, hmt]
  · by_cases hval : (activity_validate ext (activityBuild c)).1 = true
    · have hmt : c.id ∈ t.activities := by
        rw [hT, hAct]
        refine List.mem_append_right _ ?_
        have hnovel : c ∈ (dictWinners (fun c : ActivityInput => c.id) batch).filter
            (fun c => c.id ∉ s.activities) :=
          List.mem_filter.mpr ⟨hc, by simpa using hms⟩
        exact List.mem_map.mpr ⟨c, List.mem_filter.mpr ⟨hnovel, hval⟩, rfl⟩
      simp [hms, hmt, hval]
    · have hmt : c.id ∉ t.activities := by
        rw [hT, hAct]
        intro hmem
        rcases List.mem_append.mp hmem with hmem | hmem
        · exact hms hmem
        · rcases List.mem_map.mp hmem with ⟨c', hc', hid⟩
          rw [List.mem_filter] at hc'
          obtain ⟨hc'n, hc'v⟩ := hc'
          rw [List.mem_filter] at hc'n
          have : c' = c := List.inj_on_of_nodup_map hnodup hc'n.1 hc hid
          rw [this] at hc'v
          exact hval (by simpa using hc'v)
      simp [hms, hmt]

theorem contact_validate_emails_congr (ext : ExtDeps) (se1 se2 init : List String)
    (r : ContactRec)
    (h : colErrs "email" r.email (validate_email ext se1) =
      colErrs "email" r.email (validate_email ext se2)) :
    contact_validate ext se1 init r = contact_validate ext se2 init r := by
  unfold contact_validate
  rw [h]

theorem validate_email_error_mono (ext : ExtDeps) (se1 se2 : List String)
    (hsub : ∀ x ∈ se1, x ∈ se2) (em : String)
    (h : exceptOk (validate_email ext se1 em) = false) :
    exceptOk (validate_email ext se2 em) = false := by
  unfold validate_email at h ⊢
  by_cases hv : ext.validEmail (pyStrip em)
  · by_cases hm1 : pyStrip em ∈ se1
    · have hm2 : pyStrip em ∈ se2 := hsub _ hm1
      simp [hv, hm2, exceptOk]
    · simp [hv, hm1, exceptOk] at h
  · simp [hv, exceptOk]

theorem contact_validate_email_congr_of_iff (ext : ExtDeps) (se1 se2 init : List String)
    (r : ContactRec)
    (hiff : ∀ em, r.email = some em → (pyStrip em ∈ se1 ↔ pyStrip em ∈ se2)) :
    contact_validate ext se1 init r = contact_validate ext se2 init r := by
  apply contact_validate_emails_congr
  unfold colErrs
  cases hrem : r.email with
  | none => rfl
  | some em =>
    have hif := hiff em hrem
    unfold validate_email
    by_cases hv : ext.validEmail (pyStrip em)
    · by_cases hm : pyStrip em ∈ se1
      · have hm2 : pyStrip em ∈ se2 := hif.mp hm
        simp [hv, hm, hm2]
      · have hm2 : pyStrip em ∉ se2 := fun hx => hm (hif.mpr hx)
        simp [hv, hm, hm2]
    · simp [hv]

theorem contact_validate_invalid_mono (ext : ExtDeps) (se1 se2 init : List String)
    (r : ContactRec) (es1 : List String)
    (hsub : ∀ x ∈ se1, x ∈ se2)
    (h : contact_validate ext se1 init r = .ok (false, es1)) :
    ∃ es2, contact_validate ext se2 init r = .ok (false, es2) := by
  have hok1 : exceptOk (contact_validate ext se1 init r) = true := by rw [h]; rfl
  have hok2 : exceptOk (contact_validate ext se2 init r) = true := by
    rw [contact_validate_ok_char ext se2 init r]
    exact (contact_validate_ok_char ext se1 init r).mp hok1
  cases h2 : contact_validate ext se2 init r with
  | error e => rw [h2] at hok2; simp [exceptOk] at hok2
  | ok ves =>
    obtain ⟨v2, es2⟩ := ves
    refine ⟨es2, ?_⟩
    obtain ⟨hd1, hv1iff⟩ := contact_validate_errs_decomp ext se1 init r false es1 h
    obtain ⟨hd2, hv2iff⟩ := contact_validate_errs_decomp ext se2 init r v2 es2 h2
    have hne1 : es1 ≠ [] := by
      intro hnil
      have hfalse := hv1iff.mpr hnil
      simp at hfalse
    have hne2 : es2 ≠ [] := by
      intro hnil
      rw [hd2] at hnil
      simp only [List.append_eq_nil] at hnil
      obtain ⟨⟨⟨⟨⟨⟨⟨⟨⟨⟨hinit, hid⟩, hstatus⟩, hcompany⟩, hemail2⟩, hfn⟩, hln⟩,
        hti⟩, hph⟩, hcd⟩, hlm⟩ := hnil
      have hemail1 : emailColErrs ext se1 r = [] := by
        unfold emailColErrs colErrs at hemail2 ⊢
        cases hrem : r.email with
        | none => simp only [hrem] at hemail2; simp at hemail2
        | some em =>
          simp only [hrem] at hemail2 ⊢
          cases hv2e : validate_email ext se2 em with
          | error m => simp only [hv2e] at hemail2; simp at hemail2
          | ok _ =>
            cases hv1e : validate_email ext se1 em with
            | ok _ => simp only [hv1e]
            | error m =>
              have hmono := validate_email_error_mono ext se1 se2 hsub em
                (by rw [hv1e]; rfl)
              rw [hv2e] at hmono
              simp [exceptOk] at hmono
      apply hne1
      rw [hd1, hinit, hid, hstatus, hcompany, hemail1, hfn, hln, hti, hph, hcd, hlm]
      simp
    cases v2 with
    | false => rfl
    | true => exact absurd (hv2iff.mp rfl) hne2

theorem processContacts1_post (ext : ExtDeps) (s : Store) (batch : List ContactInput)
    (s' : Store) (errs : List (String × List String))
    (h : processContacts1 ext s batch = .ok (s', errs)) :
    s'.contact_statuses = processSubEntities s.contact_statuses
      ((contactDedupBatch batch).map (fun c => c.status))
    ∧ s'.industries = s.industries
    ∧ s'.stages = s.stages
    ∧ s'.forecast_categories = s.forecast_categories
    ∧ s'.products = s.products
    ∧ s'.companies = s.companies
    ∧ s'.opportunities = s.opportunities
    ∧ s'.activities = s.activities
    ∧ s'.contacts = s.contacts ++
        (((dictWinners (fun c : ContactInput => c.id) (contactDedupBatch batch)).filter
          (fun c => c.id ∉ s.contacts.map Prod.fst)).filter
            (validOutcome (fun c => contact_validate ext (s.contacts.map Prod.snd) []
              (contactBuild (processSubEntities s.contact_statuses
                ((contactDedupBatch batch).map (fun c => c.status))) c)))).map
          (fun c => (c.id, pyStrip (c.email.getD "")))
    ∧ errs = ((dictWinners (fun c : ContactInput => c.id) (contactDedupBatch batch)).filter
        (fun c => c.id ∉ s.contacts.map Prod.fst)).filterMap
          (errEntry (fun c : ContactInput => c.id)
            (fun c => contact_validate ext (s.contacts.map Prod.snd) []
              (contactBuild (processSubEntities s.contact_statuses
                ((contactDedupBatch batch).map (fun c => c.status))) c)))
    ∧ (∀ c ∈ (dictWinners (fun c : ContactInput => c.id) (contactDedupBatch batch)).filter
        (fun c => c.id ∉ s.contacts.map Prod.fst),
        exceptOk (contact_validate ext (s.contacts.map Prod.snd) []
          (contactBuild (processSubEntities s.contact_statuses
            ((contactDedupBatch batch).map (fun c => c.status))) c)) = true) := by
  unfold processContacts1 at h
  simp only [] at h
  cases hsp : splitValidE (fun c : ContactInput => c.id)
      (fun c => contact_validate ext (s.contacts.map Prod.snd) []
        (contactBuild (processSubEntities s.contact_statuses
          ((contactDedupBatch batch).map (fun c => c.status))) c))
      ((dictWinners (fun c : ContactInput => c.id) (contactDedupBatch batch)).filter
        (fun c => c.id ∉ s.contacts.map Prod.fst)) with
  | error e => rw [hsp] at h; simp at h
  | ok pair =>
    obtain ⟨errs0, tc⟩ := pair
    rw [hsp] at h
    simp only [] at h
    obtain ⟨hall, herrs0, htc⟩ := splitValidE_ok_spec _ _ _ _ _ hsp
    split at h
    case isFalse => simp at h
    case isTrue hcond =>
      simp only [Except.ok.injEq, Prod.mk.injEq] at h
      obtain ⟨hs, he⟩ := h
      subst hs
      subst he
      refine ⟨rfl, rfl, rfl, rfl, rfl, rfl, rfl, rfl, ?_, herrs0, hall⟩
      rw [htc]

theorem secondPass_core (W : List ContactInput) (ids1 ids2 : List String)
    (v1 v2 : ContactInput → Except PyErr (Bool × List String))
    (hids : ∀ x ∈ ids1, x ∈ ids2)
    (hall1 : ∀ c ∈ W.filter (fun c => c.id ∉ ids1), exceptOk (v1 c) = true)
    (hvalid_in : ∀ c ∈ W.filter (fun c => c.id ∉ ids1),
      validOutcome v1 c = true → c.id ∈ ids2)
    (hinv2 : ∀ c ∈ W, c.id ∉ ids2 → validOutcome v1 c = false →
      ∃ es2, v2 c = .ok (false, es2))
    (hnotin2 : ∀ c ∈ W, c.id ∉ ids1 → validOutcome v1 c = false → c.id ∉ ids2) :
    (∀ c ∈ W.filter (fun c => c.id ∉ ids2),
      validOutcome v2 c = false ∧ exceptOk (v2 c) = true)
    ∧ ((W.filter (fun c => c.id ∉ ids2)).filterMap
        (errEntry (fun c : ContactInput => c.id) v2)).map Prod.fst =
      ((W.filter (fun c => c.id ∉ ids1)).filterMap
        (errEntry (fun c : ContactInput => c.id) v1)).map Prod.fst
    ∧ ((∀ c ∈ W, c.id ∉ ids2 → v2 c = v1 c) →
      (W.filter (fun c => c.id ∉ ids2)).filterMap
        (errEntry (fun c : ContactInput => c.id) v2) =
      (W.filter (fun c => c.id ∉ ids1)).filterMap
        (errEntry (fun c : ContactInput => c.id) v1)) := by
  have hmain : ∀ c ∈ W, c.id ∉ ids2 →
      validOutcome v1 c = false ∧ exceptOk (v1 c) = true ∧
        ∃ es2, v2 c = .ok (false, es2) := by
    intro c hc hmem2
    have hmem1 : c.id ∉ ids1 := fun hm => hmem2 (hids _ hm)
    have hcf : c ∈ W.filter (fun c => c.id ∉ ids1) :=
      List.mem_filter.mpr ⟨hc, by simpa using hmem1⟩
    have hok1 := hall1 c hcf
    cases hvo : validOutcome v1 c with
    | true => exact absurd (hvalid_in c hcf hvo) hmem2
    | false =>
      exact ⟨rfl, hok1, hinv2 c hc hmem2 hvo⟩
  refine ⟨?_, ?_, ?_⟩
  · intro c hc
    rw [List.mem_filter] at hc
    obtain ⟨hcW, hmem2⟩ := hc
    obtain ⟨_, _, es2, hes2⟩ := hmain c hcW (by simpa using hmem2)
    constructor
    · unfold validOutcome
      rw [hes2]
    · rw [hes2]; rfl
  · rw [filter_filterMap_eq, filter_filterMap_eq]
    apply filterMap_fst_congr
    intro c hc
    by_cases hm2 : c.id ∈ ids2
    · by_cases hm1 : c.id ∈ ids1
      · simp [hm1, hm2]
      · simp only [hm1, hm2]
        have hcf : c ∈ W.filter (fun c => c.id ∉ ids1) :=
          List.mem_filter.mpr ⟨hc, by simpa using hm1⟩
        have hok1 := hall1 c hcf
        cases hv1 : v1 c with
        | error e => rw [hv1] at hok1; simp [exceptOk] at hok1
        | ok ves =>
          obtain ⟨v, es⟩ := ves
          cases v with
          | true =>
            have : errEntry (fun c : ContactInput => c.id) v1 c = none := by
              unfold errEntry
              rw [hv1]
              simp
            simp [hm2, this]
          | false =>
            have hno2 : c.id ∉ ids2 := by
              apply hnotin2 c hc hm1
              unfold validOutcome
              rw [hv1]
            exact absurd hm2 hno2
    · have hm1 : c.id ∉ ids1 := fun hm => hm2 (hids _ hm)
      obtain ⟨hvo, _, es2, hes2⟩ := hmain c hc hm2
      have he2 : errEntry (fun c : ContactInput => c.id) v2 c = some (c.id, es2) := by
        unfold errEntry
        rw [hes2]
        simp
      cases hv1 : v1 c with
      | error e =>
        have := hall1 c (List.mem_filter.mpr ⟨hc, by simpa using hm1⟩)
        rw [hv1] at this; simp [exceptOk] at this
      | ok ves =>
        obtain ⟨v, es⟩ := ves
        have hvfalse : v = false := by
          unfold validOutcome at hvo
          rw [hv1] at hvo
          exact hvo
        subst hvfalse
        have he1 : errEntry (fun c : ContactInput => c.id) v1 c = some (c.id, es) := by
          unfold errEntry
          rw [hv1]
          simp
        simp [hm1, hm2, he1, he2]
  · intro hcong
    rw [filter_filterMap_eq, filter_filterMap_eq]
    apply List.filterMap_congr
    intro c hc
    by_cases hm2 : c.id ∈ ids2
    · by_cases hm1 : c.id ∈ ids1
      · simp [hm1, hm2]
      · simp only [hm1, hm2]
        have hcf : c ∈ W.filter (fun c => c.id ∉ ids1) :=
          List.mem_filter.mpr ⟨hc, by simpa using hm1⟩
        have hok1 := hall1 c hcf
        cases hv1 : v1 c with
        | error e => rw [hv1] at hok1; simp [exceptOk] at hok1
        | ok ves =>
          obtain ⟨v, es⟩ := ves
          cases v with
          | true =>
            have : errEntry (fun c : ContactInput => c.id) v1 c = none := by
              unfold errEntry
              rw [hv1]
              simp
            simp [hm2, this]
          | false =>
            have hno2 : c.id ∉ ids2 := by
              apply hnotin2 c hc hm1
              unfold validOutcome
              rw [hv1]
            exact absurd hm2 hno2
    · have hm1 : c.id ∉ ids1 := fun hm => hm2 (hids _ hm)
      have hveq := hcong c hc hm2
      have : errEntry (fun c : ContactInput => c.id) v2 c =
          errEntry (fun c : ContactInput => c.id) v1 c := by
        unfold errEntry
        rw [hveq]
      simp [hm1, hm2, this]

set_option maxHeartbeats 2000000 in
theorem processContacts1_idem (ext : ExtDeps) (s : Store) (batch : List ContactInput)
    (s' : Store) (errs : List (String × List String)) (t : Store)
    (h : processContacts1 ext s batch = .ok (s', errs))
    (hTS : t.contact_statuses = s'.contact_statuses)
    (hTC : t.contacts = s'.contacts) :
    ∃ errs2, processContacts1 ext t batch = .ok (t, errs2)
      ∧ errs2.map Prod.fst = errs.map Prod.fst
      ∧ ((∀ c ∈ dictWinners (fun c : ContactInput => c.id) (contactDedupBatch batch),
          c.id ∉ t.contacts.map Prod.fst →
          ∀ em, c.email = some em →
            pyStrip em ∉ (t.contacts.map Prod.snd).drop s.contacts.length) →
        errs2 = errs) := by
  obtain ⟨hcs, _, _, _, _, _, _, _, hrows, herrs, hall⟩ :=
    processContacts1_post ext s batch s' errs h
  have hkeysnodup := dictWinners_keys_nodup (fun c : ContactInput => c.id)
    (contactDedupBatch batch)
  have hTSS : t.contact_statuses = processSubEntities s.contact_statuses
      ((contactDedupBatch batch).map (fun c => c.status)) := by rw [hTS, hcs]
  have hstat : processSubEntities t.contact_statuses
      ((contactDedupBatch batch).map (fun c => c.status)) = t.contact_statuses := by
    apply processSubEntities_noop
    intro v hv
    rw [hTSS]
    exact processSubEntities_mem_of _ _ v hv
  have hv2 : ∀ c : ContactInput,
      contact_validate ext (t.contacts.map Prod.snd) []
        (contactBuild (processSubEntities t.contact_statuses
          ((contactDedupBatch batch).map (fun c => c.status))) c) =
      contact_validate ext (t.contacts.map Prod.snd) []
        (contactBuild (processSubEntities s.contact_statuses
          ((contactDedupBatch batch).map (fun c => c.status))) c) := by
    intro c
    rw [hstat, hTSS]
  have hids : ∀ x ∈ s.contacts.map Prod.fst, x ∈ t.contacts.map Prod.fst := by
    intro x hx
    rw [hTC, hrows, List.map_append]
    exact List.mem_append_left _ hx
  have hemsub : ∀ x ∈ s.contacts.map Prod.snd, x ∈ t.contacts.map Prod.snd := by
    intro x hx
    rw [hTC, hrows, List.map_append]
    exact List.mem_append_left _ hx
  have hvalid_in : ∀ c ∈ (dictWinners (fun c : ContactInput => c.id)
      (contactDedupBatch batch)).filter
        (fun c => c.id ∉ s.contacts.map Prod.fst),
      validOutcome (fun c => contact_validate ext (s.contacts.map Prod.snd) []
        (contactBuild (processSubEntities s.contact_statuses
          ((contactDedupBatch batch).map (fun c => c.status))) c)) c = true →
      c.id ∈ t.contacts.map Prod.fst := by
    intro c hc hvo
    rw [hTC, hrows, List.map_append]
    refine List.mem_append_right _ ?_
    rw [List.map_map]
    refine List.mem_map.mpr ⟨c, ?_, rfl⟩
    exact List.mem_filter.mpr ⟨hc, hvo⟩
  have hinv2 : ∀ c ∈ dictWinners (fun c : ContactInput => c.id)
      (contactDedupBatch batch),
      c.id ∉ t.contacts.map Prod.fst →
      validOutcome (fun c => contact_validate ext (s.contacts.map Prod.snd) []
        (contactBuild (processSubEntities s.contact_statuses
          ((contactDedupBatch batch).map (fun c => c.status))) c)) c = false →
      ∃ es2, contact_validate ext (t.contacts.map Prod.snd) []
        (contactBuild (processSubEntities s.contact_statuses
          ((contactDedupBatch batch).map (fun c => c.status))) c) = .ok (false, es2) := by
    intro c hc hmem2 hvo
    have hmem1 : c.id ∉ s.contacts.map Prod.fst := fun hm => hmem2 (hids _ hm)
    have hcf : c ∈ (dictWinners (fun c : ContactInput => c.id)
        (contactDedupBatch batch)).filter
          (fun c => c.id ∉ s.contacts.map Prod.fst) :=
      List.mem_filter.mpr ⟨hc, by simpa using hmem1⟩
    have hok1 := hall c hcf
    cases hv1 : contact_validate ext (s.contacts.map Prod.snd) []
        (contactBuild (processSubEntities s.contact_statuses
          ((contactDedupBatch batch).map (fun c => c.status))) c) with
    | error e => rw [hv1] at hok1; simp [exceptOk] at hok1
    | ok ves =>
      obtain ⟨v, es⟩ := ves
      have hvfalse : v = false := by
        simp only [validOutcome, hv1] at hvo
        exact hvo
      subst hvfalse
      exact contact_validate_invalid_mono ext (s.contacts.map Prod.snd)
        (t.contacts.map Prod.snd) [] _ es hemsub hv1
  have hnotin2 : ∀ c ∈ dictWinners (fun c : ContactInput => c.id)
      (contactDedupBatch batch),
      c.id ∉ s.contacts.map Prod.fst →
      validOutcome (fun c => contact_validate ext (s.contacts.map Prod.snd) []
        (contactBuild (processSubEntities s.contact_statuses
          ((contactDedupBatch batch).map (fun c => c.status))) c)) c = false →
      c.id ∉ t.contacts.map Prod.fst := by
    intro c hc hmem1 hvo hmem2
    rw [hTC, hrows, List.map_append] at hmem2
    rcases List.mem_append.mp hmem2 with hm | hm
    · exact hmem1 hm
    · rw [List.map_map] at hm
      rcases List.mem_map.mp hm with ⟨c', hc', hid⟩
      rw [List.mem_filter] at hc'
      obtain ⟨hc'n, hc'v⟩ := hc'
      rw [List.mem_filter] at hc'n
      have hceq : c' = c := List.inj_on_of_nodup_map hkeysnodup hc'n.1 hc hid
      rw [hceq] at hc'v
      rw [hvo] at hc'v
      simp at hc'v
  obtain ⟨hallinv2, hfst, hcongr⟩ := secondPass_core
    (dictWinners (fun c : ContactInput => c.id) (contactDedupBatch batch))
    (s.contacts.map Prod.fst) (t.contacts.map Prod.fst)
    (fun c => contact_validate ext (s.contacts.map Prod.snd) []
      (contactBuild (processSubEntities s.contact_statuses
        ((contactDedupBatch batch).map (fun c => c.status))) c))
    (fun c => contact_validate ext (t.contacts.map Prod.snd) []
      (contactBuild (processSubEntities s.contact_statuses
        ((contactDedupBatch batch).map (fun c => c.status))) c))
    hids hall hvalid_in hinv2 hnotin2
  have hErrEq : ∀ c : ContactInput,
      errEntry (fun c : ContactInput => c.id)
        (fun c => contact_validate ext (t.contacts.map Prod.snd) []
          (contactBuild (processSubEntities t.contact_statuses
            ((contactDedupBatch batch).map (fun c => c.status))) c)) c =
      errEntry (fun c : ContactInput => c.id)
        (fun c => contact_validate ext (t.contacts.map Prod.snd) []
          (contactBuild (processSubEntities s.contact_statuses
            ((contactDedupBatch batch).map (fun c => c.status))) c)) c := by
    intro c
    simp only [errEntry]
    rw [hv2 c]
  have hsplit := splitValidE_all_invalid (fun c : ContactInput => c.id)
    (fun c => contact_validate ext (t.contacts.map Prod.snd) []
      (contactBuild (processSubEntities t.contact_statuses
        ((contactDedupBatch batch).map (fun c => c.status))) c))
    ((dictWinners (fun c : ContactInput => c.id) (contactDedupBatch batch)).filter
      (fun c => c.id ∉ t.contacts.map Prod.fst))
    (by
      intro c hc
      obtain ⟨hvo, hok⟩ := hallinv2 c hc
      constructor
      · simp only [validOutcome] at hvo ⊢
        rw [hv2 c]
        exact hvo
      · simp only []
        rw [hv2 c]
        exact hok)
  refine ⟨((dictWinners (fun c : ContactInput => c.id) (contactDedupBatch batch)).filter
      (fun c => c.id ∉ t.contacts.map Prod.fst)).filterMap
        (errEntry (fun c : ContactInput => c.id)
          (fun c => contact_validate ext (t.contacts.map Prod.snd) []
            (contactBuild (processSubEntities t.contact_statuses
              ((contactDedupBatch batch).map (fun c => c.status))) c))), ?_, ?_, ?_⟩
  · unfold processContacts1
    simp only []
    rw [hsplit]
    simp only []
    rw [if_pos (by simp)]
    rw [hstat]
    simp
  · rw [herrs]
    rw [List.filterMap_congr (fun c _ => hErrEq c)]
    exact hfst
  · intro hnoclash
    rw [herrs]
    rw [List.filterMap_congr (fun c _ => hErrEq c)]
    apply hcongr
    intro c hc hmem2
    have hdrop : (t.contacts.map Prod.snd).drop s.contacts.length =
        ((((dictWinners (fun c : ContactInput => c.id)
          (contactDedupBatch batch)).filter
            (fun c => c.id ∉ s.contacts.map Prod.fst)).filter
              (validOutcome (fun c => contact_validate ext (s.contacts.map Prod.snd) []
                (contactBuild (processSubEntities s.contact_statuses
                  ((contactDedupBatch batch).map (fun c => c.status))) c)))).map
            (fun c => (c.id, pyStrip (c.email.getD "")))).map Prod.snd := by
      rw [hTC, hrows, List.map_append,
        show s.contacts.length = (s.contacts.map Prod.snd).length from
          (List.length_map _ _).symm,
        List.drop_left]
    apply contact_validate_email_congr_of_iff
    intro em hem
    have hnc := hnoclash c hc hmem2 em hem
    rw [hdrop] at hnc
    constructor
    · intro hmem
      rw [hTC, hrows, List.map_append] at hmem
      rcases List.mem_append.mp hmem with hm | hm
      · exact hm
      · exact absurd hm hnc
    · intro hmem
      exact hemsub _ hmem

/-- C1 amended: re-running the loader on an unchanged input set is
idempotent on the persisted store — the second run returns exactly the
first run's final store, so every entity type's row count is unchanged
and nothing is re-ingested — and the second run reports validation
errors only for records the first run already rejected: its company and
opportunity error lists are sublists of the first run's, its activity
error list is identical, its contact error list concerns exactly the
same record keys, and is identical provided no re-processed contact's
stripped email equals an email first persisted by run 1 (`NoEmailClash`);
otherwise a re-processed contact can gain a new
"A contact already exists with email" error. -/
theorem pipeline_rerun_idempotent (ext : ExtDeps) (s : Store) (inp : Inputs)
    (s1 : Store) (e1 : RunErrors)
    (h : runPipeline ext s inp = .ok (s1, e1)) :
    ∃ e2 : RunErrors, runPipeline ext s1 inp = .ok (s1, e2)
      ∧ e2.companies.Sublist e1.companies
      ∧ e2.opportunities.Sublist e1.opportunities
      ∧ e2.activities = e1.activities
      ∧ e2.contacts.map Prod.fst = e1.contacts.map Prod.fst
      ∧ (NoEmailClash s s1 inp → e2.contacts = e1.contacts) := by
  unfold runPipeline at h
  cases hA : processCompaniesAll ext s inp.companies with
  | error e => rw [hA] at h; simp at h
  | ok rA =>
    obtain ⟨sA, ce⟩ := rA
    rw [hA] at h
    simp only [] at h
    cases hB : processContacts1 ext sA inp.contacts with
    | error e => rw [hB] at h; simp at h
    | ok rB =>
      obtain ⟨sB, te⟩ := rB
      rw [hB] at h
      simp only [] at h
      cases hO : processOpportunitiesAll ext sB inp.opportunities with
      | mk sC oe =>
        rw [hO] at h
        simp only [] at h
        cases hD : processActivities1 ext sC inp.activities with
        | mk sD ae =>
          rw [hD] at h
          simp only [Except.ok.injEq, Prod.mk.injEq] at h
          obtain ⟨rfl, rfl⟩ := h
          -- run-1 component bookkeeping
          obtain ⟨_, ⟨rowsA, hArows⟩, hAcs, hAst, hAfc, hApr, hAct, hAop, hAac⟩ :=
            processCompaniesAll_post ext inp.companies s sA ce hA
          obtain ⟨hBcs, hBin, hBst, hBfc, hBpr, hBco, hBop, hBac, hBrows, hBerrs, hBall⟩ :=
            processContacts1_post ext sA inp.contacts sB te hB
          have hOpost := processOpportunitiesAll_post ext inp.opportunities sB
          rw [hO] at hOpost
          obtain ⟨hCin, hCcs, ⟨lst, hCst⟩, ⟨lfc, hCfc⟩, ⟨lpr, hCpr⟩, hCco, hCct,
            ⟨lop, hCop⟩, hCac⟩ := hOpost
          have hDpost := processActivities1_post ext sC inp.activities
          rw [hD] at hDpost
          obtain ⟨hDin, hDcs, hDst, hDfc, hDpr, hDco, hDct, hDop, hDac, hDwin, hDerrs⟩ :=
            hDpost
          -- final-store component equations
          have hSind : sD.industries = sA.industries := by rw [hDin, hCin, hBin]
          have hScomp : sD.companies = sA.companies := by rw [hDco, hCco, hBco]
          have hScs : sD.contact_statuses = sB.contact_statuses := by
            rw [hDcs, hCcs]
          have hSct : sD.contacts = sB.contacts := by rw [hDct, hCct]
          have hSst : sD.stages = sC.stages := by rw [hDst]
          have hSfc : sD.forecast_categories = sC.forecast_categories := by rw [hDfc]
          have hSpr : sD.products = sC.products := by rw [hDpr]
          have hSop : sD.opportunities = sC.opportunities := by rw [hDop]
          -- run 2, phase by phase
          obtain ⟨ce2, hC2, hce2⟩ :=
            processCompaniesAll_idem ext inp.companies s sA ce sD hA hSind hScomp
          obtain ⟨te2, hT2, hte2fst, hte2nc⟩ :=
            processContacts1_idem ext sA inp.contacts sB te sD hB hScs hSct
          have hO2pre := processOpportunitiesAll_idem ext inp.opportunities sB sD
          rw [hO] at hO2pre
          obtain ⟨oe2, hO2, hoe2⟩ := hO2pre hSst hSfc hSpr hSop
          have hD2 := processActivities1_idem ext sC sD inp.activities
            (by rw [hD])
          rw [hD] at hD2
          refine ⟨⟨ce2, te2, oe2, ae⟩, ?_, hce2, hoe2, rfl, hte2fst, ?_⟩
          · unfold runPipeline
            rw [hC2]
            simp only []
            rw [hT2]
            simp only []
            rw [hO2]
            simp only []
            rw [hD2]
          · intro hnc
            apply hte2nc
            intro c hc hmem em hem
            have hlen : sA.contacts.length = s.contacts.length := by rw [hAct]
            rw [hlen]
            exact hnc c hc hmem em hem

/-- Witness for the amended idempotence theorem: loading one valid
contact into an empty database, then re-running on the unchanged
inputs, returns the same store with no errors either time. -/
theorem pipeline_rerun_idempotent_witness :
    ∃ e2 : RunErrors, runPipeline extW storeOneW inputsOneW = .ok (storeOneW, e2)
      ∧ e2.companies.Sublist (⟨[], [], [], []⟩ : RunErrors).companies
      ∧ e2.opportunities.Sublist (⟨[], [], [], []⟩ : RunErrors).opportunities
      ∧ e2.activities = (⟨[], [], [], []⟩ : RunErrors).activities
      ∧ e2.contacts.map Prod.fst = (⟨[], [], [], []⟩ : RunErrors).contacts.map Prod.fst
      ∧ (NoEmailClash store0W storeOneW inputsOneW →
          e2.contacts = (⟨[], [], [], []⟩ : RunErrors).contacts) :=
  pipeline_rerun_idempotent extW store0W inputsOneW storeOneW ⟨[], [], [], []⟩ rfl

/-- C1 counterexample to "the second run produces no new validation
errors caused purely by re-processing": with one valid contact whose
stripped email is persisted and a second contact rejected for its phone,
the first run reports only the phone error, but the second run — on the
unchanged inputs and the unchanged store — additionally reports an
email-uniqueness error against the row the first run inserted. The
persisted rows are identical after both runs, so the row-count half of
the claim survives while the no-new-errors half fails. -/
theorem pipeline_rerun_counterexample :
    runPipeline extW store0W inputsClashW =
      .ok (storeOneW, ⟨[], [("c2", [phoneMsgW])], [], []⟩)
    ∧ runPipeline extW storeOneW inputsClashW =
      .ok (storeOneW, ⟨[], [("c2", [emailMsgW, phoneMsgW])], [], []⟩)
    ∧ emailMsgW ∉ [phoneMsgW] :=
  ⟨rfl, rfl, by decide⟩
